import Mathlib

set_option autoImplicit false

namespace MeshSettings

/-!
Shallow embedding of the mesh persistence subsystem in
src/src/bt/blehost/nimble/host/mesh/src/settings.c (the binary-format
branch, BASE64_ENCODE_VALUE = 0).  Bytes are modelled as natural numbers
below 256, machine 32-bit arithmetic as Nat arithmetic modulo 2^32, and
configuration macros (CONFIG_BT_MESH_SEQ_STORE_RATE and friends) as
explicit parameters.
-/

/-- The modulus of the 32-bit field bt_mesh.seq. -/
def U32 : Nat := 4294967296

/-- The little-endian combination of the three persisted sequence bytes
computed in seq_set_bin:
seq = val[0] | (val[1] << 8) | (val[2] << 16). -/
def seq_val_decode_raw (b0 b1 b2 : Nat) : Nat :=
  b0 + 256 * b1 + 65536 * b2

/-- The store-rate rounding applied by seq_set_bin after decoding the raw
value: when CONFIG_BT_MESH_SEQ_STORE_RATE is positive,
bt_mesh.seq += rate - (bt_mesh.seq % rate) followed by bt_mesh.seq--,
both on the 32-bit field, hence the explicit reductions modulo 2^32. -/
def seq_restore (rate s : Nat) : Nat :=
  if 0 < rate then ((s + (rate - s % rate)) % U32 + (U32 - 1)) % U32
  else s

/-- seq_set_bin (settings.c): a zero-length value resets bt_mesh.seq to 0;
a value of any length other than 3 is rejected with -EINVAL; otherwise the
three bytes are combined little-endian and the store-rate rounding is
applied.  The returned Nat is the resulting in-memory bt_mesh.seq. -/
def seq_set_bin (rate : Nat) (value : List Nat) : Except Int Nat :=
  if value.length = 0 then Except.ok 0
  else
    match value with
    | [b0, b1, b2] => Except.ok (seq_restore rate (seq_val_decode_raw b0 b1 b2))
    | _ => Except.error (-22)

/-- The atomic flag word bt_mesh.flags, restricted to the bits used by
settings.c: one pending bit per storage category plus the BT_MESH_VALID,
BT_MESH_NODE and BT_MESH_PROVISIONER bits. -/
structure AtomicFlags where
  netPending : Bool
  ivPending : Bool
  seqPending : Bool
  rplPending : Bool
  keysPending : Bool
  hbPubPending : Bool
  cfgPending : Bool
  modPending : Bool
  vaPending : Bool
  rolePending : Bool
  nodesPending : Bool
  valid : Bool
  node : Bool
  provisioner : Bool
deriving DecidableEq, Repr

/-- The storage-category pending bits that schedule_store can be asked to
set (BT_MESH_NET_PENDING .. BT_MESH_NODES_PENDING). -/
inductive PendingFlag where
  | net | iv | seq | rpl | keys | hbPub | cfg | mod | va | role | nodes
deriving DecidableEq, Repr

/-- atomic_set_bit on the flag word, for the pending bits. -/
def atomic_set_bit (f : AtomicFlags) : PendingFlag → AtomicFlags
  | .net => { f with netPending := true }
  | .iv => { f with ivPending := true }
  | .seq => { f with seqPending := true }
  | .rpl => { f with rplPending := true }
  | .keys => { f with keysPending := true }
  | .hbPub => { f with hbPubPending := true }
  | .cfg => { f with cfgPending := true }
  | .mod => { f with modPending := true }
  | .va => { f with vaPending := true }
  | .role => { f with rolePending := true }
  | .nodes => { f with nodesPending := true }

/-- The configuration macros consumed by settings.c, all external syscfg
values: the two debounce timeouts are in seconds, the sequence store rate
is a count, ivuMinHours is BT_MESH_IVU_MIN_HOURS. -/
structure Config where
  rplStoreTimeout : Nat
  storeTimeout : Nat
  seqStoreRate : Nat
  ivuMinHours : Nat
deriving DecidableEq, Repr

/-- K_SECONDS: seconds to milliseconds. -/
def K_SECONDS (s : Nat) : Nat := 1000 * s

/-- NO_WAIT_PENDING_BITS: the categories stored with the short fixed
workaround delay (network, IV, role). -/
def NO_WAIT_PENDING_BITS (f : AtomicFlags) : Bool :=
  f.netPending || f.ivPending || f.rolePending

/-- GENERIC_PENDING_BITS: the categories using
CONFIG_BT_MESH_STORE_TIMEOUT (keys, heartbeat publication, configuration,
model, sequence, nodes).  Note that the virtual-address pending bit is in
neither mask. -/
def GENERIC_PENDING_BITS (f : AtomicFlags) : Bool :=
  f.keysPending || f.hbPubPending || f.cfgPending || f.modPending ||
    f.seqPending || f.nodesPending

/-- CONFIG_MESH_STORE_WORKAROUND_FLASH_FLUSH_TIMEOUT, milliseconds. -/
def WORKAROUND_FLASH_FLUSH_TIMEOUT : Nat := 500

/-- The timeout selection inside schedule_store, evaluated on the flag
word after the new pending bit has been set. -/
def schedule_timeout (cfg : Config) (f : AtomicFlags) : Nat :=
  if NO_WAIT_PENDING_BITS f then WORKAROUND_FLASH_FLUSH_TIMEOUT
  else if f.rplPending &&
      (!GENERIC_PENDING_BITS f ||
        decide (cfg.rplStoreTimeout < cfg.storeTimeout)) then
    K_SECONDS cfg.rplStoreTimeout
  else K_SECONDS cfg.storeTimeout

/-- The state observed by schedule_store: the flag word and the remaining
time (milliseconds) of the pending_store delayed work, with
k_delayed_work_remaining_get returning 0 when no flush is armed. -/
structure PendingStore where
  flags : AtomicFlags
  remaining : Nat
deriving DecidableEq, Repr

/-- schedule_store (settings.c): sets the pending bit, computes the
timeout from the updated flag word, and, unless a flush is already armed
with strictly less remaining time than the new timeout, calls
k_delayed_work_submit with the new timeout.  The returned Bool records
whether k_delayed_work_submit was called (the timer rearmed); the
remaining field of the result is the remaining time right after the call. -/
def schedule_store (cfg : Config) (s : PendingStore) (flag : PendingFlag) :
    PendingStore × Bool :=
  let f := atomic_set_bit s.flags flag
  let timeout := schedule_timeout cfg f
  if s.remaining ≠ 0 ∧ s.remaining < timeout then
    ({ flags := f, remaining := s.remaining }, false)
  else
    ({ flags := f, remaining := timeout }, true)

/-- bt_mesh_store_seq (settings.c): returns without doing anything when a
positive store rate is configured and the current in-memory sequence is
not a multiple of it; otherwise marks the sequence category pending via
schedule_store.  The Bool of the result is the submit flag of
schedule_store (false on the early return). -/
def bt_mesh_store_seq (cfg : Config) (seq : Nat) (s : PendingStore) :
    PendingStore × Bool :=
  if cfg.seqStoreRate ≠ 0 ∧ seq % cfg.seqStoreRate ≠ 0 then (s, false)
  else schedule_store cfg s PendingFlag.seq

/-- An all-clear flag word, used as a base point for concrete instances. -/
def noFlags : AtomicFlags :=
  { netPending := false, ivPending := false, seqPending := false,
    rplPending := false, keysPending := false, hbPubPending := false,
    cfgPending := false, modPending := false, vaPending := false,
    rolePending := false, nodesPending := false, valid := false,
    node := false, provisioner := false }

/-- A concrete configuration (replay-protection timeout 5 s, generic
timeout 2 s, store rate 10) for witnesses and counterexamples. -/
def cfgA : Config :=
  { rplStoreTimeout := 5, storeTimeout := 2, seqStoreRate := 10,
    ivuMinHours := 96 }

/-- A concrete configuration with store rate 16 for witnesses. -/
def cfgB : Config :=
  { rplStoreTimeout := 5, storeTimeout := 2, seqStoreRate := 16,
    ivuMinHours := 96 }

/-- C1: for every persisted 3-byte sequence value S and every configured
store rate R with 0 < R (and R representable, R < 2^32), the in-memory
sequence after seq_set_bin equals S + (R - S % R) - 1, which is always at
least S, so the restored counter never falls below the persisted one. -/
theorem seq_restore_matches_spec (rate b0 b1 b2 : Nat)
    (h0 : b0 < 256) (h1 : b1 < 256) (h2 : b2 < 256)
    (hr : 0 < rate) (hru : rate < U32) :
    seq_set_bin rate [b0, b1, b2] =
      Except.ok (seq_val_decode_raw b0 b1 b2 +
        (rate - seq_val_decode_raw b0 b1 b2 % rate) - 1) ∧
    seq_val_decode_raw b0 b1 b2 ≤
      seq_val_decode_raw b0 b1 b2 +
        (rate - seq_val_decode_raw b0 b1 b2 % rate) - 1 := by
  set S := seq_val_decode_raw b0 b1 b2 with hS
  have hS24 : S < 16777216 := by
    simp only [hS, seq_val_decode_raw]; omega
  have hmod : S % rate < rate := Nat.mod_lt _ hr
  have hle : S % rate ≤ S := Nat.mod_le _ _
  have hv : S + (rate - S % rate) < U32 := by
    rcases Nat.lt_or_ge S rate with h | h
    · rw [Nat.mod_eq_of_lt h]
      simp only [U32] at hru ⊢
      omega
    · simp only [U32] at hru ⊢
      omega
  have hv1 : 1 ≤ S + (rate - S % rate) := by omega
  constructor
  · have hrest : seq_restore rate S = S + (rate - S % rate) - 1 := by
      rw [seq_restore, if_pos hr, Nat.mod_eq_of_lt hv]
      simp only [U32] at hv hv1 ⊢
      omega
    simp only [seq_set_bin, List.length_cons, List.length_nil]
    rw [if_neg (by omega)]
    exact congrArg Except.ok hrest
  · omega

/-- Witness for C1, on the worked example of the spec:
S = 100, R = 16, restored value 111. -/
theorem seq_restore_matches_spec_witness :
    ((100 : Nat) < 256 ∧ (0 : Nat) < 16) ∧
    seq_set_bin 16 [100, 0, 0] =
      Except.ok (seq_val_decode_raw 100 0 0 +
        (16 - seq_val_decode_raw 100 0 0 % 16) - 1) ∧
    seq_val_decode_raw 100 0 0 ≤
      seq_val_decode_raw 100 0 0 + (16 - seq_val_decode_raw 100 0 0 % 16) - 1 :=
  ⟨⟨by decide, by decide⟩,
    seq_restore_matches_spec 16 100 0 0 (by decide) (by decide) (by decide)
      (by decide) (by decide)⟩

/-- C2 counterexample: the claim states that when the newly computed
timeout is later than or equal to the remaining time of the armed flush
the timer is not rearmed.  With the generic store timeout at 2 seconds, a
flush armed with exactly 2000 ms remaining, and a mark of the sequence
category, the computed timeout (2000 ms) equals the remaining time, yet
schedule_store calls k_delayed_work_submit (the submit flag is true): the
code only skips the submit when the remaining time is strictly smaller
than the new timeout. -/
theorem schedule_store_equal_deadline_rearms :
    schedule_timeout cfgA (atomic_set_bit noFlags PendingFlag.seq) = 2000 ∧
    (schedule_store cfgA { flags := noFlags, remaining := 2000 }
      PendingFlag.seq).2 = true := by
  constructor
  · decide
  · decide

/-- C2 (amended): on a mark with a flush already armed (remaining time
nonzero), if the newly computed timeout is strictly later than the
remaining time the deadline is kept and the timer is not rearmed; if the
timeout is earlier than or equal to the remaining time the timer is
rearmed to the new timeout - so the deadline value never moves later, it
moves strictly earlier whenever the new timeout is strictly earlier, and
at exact equality the timer is rearmed but to the unchanged deadline. -/
theorem schedule_store_deadline_policy (cfg : Config) (s : PendingStore)
    (flag : PendingFlag) (harmed : s.remaining ≠ 0) :
    (s.remaining < schedule_timeout cfg (atomic_set_bit s.flags flag) →
      (schedule_store cfg s flag).1.remaining = s.remaining ∧
      (schedule_store cfg s flag).2 = false) ∧
    (schedule_timeout cfg (atomic_set_bit s.flags flag) ≤ s.remaining →
      (schedule_store cfg s flag).1.remaining =
        schedule_timeout cfg (atomic_set_bit s.flags flag) ∧
      (schedule_store cfg s flag).2 = true) := by
  constructor
  · intro hlt
    rw [schedule_store, if_pos ⟨harmed, hlt⟩]
    exact ⟨rfl, rfl⟩
  · intro hge
    rw [schedule_store, if_neg (by omega)]
    exact ⟨rfl, rfl⟩

/-- Witness for the amended C2: timeout 500 ms against 100 ms remaining
keeps the armed deadline without a rearm. -/
theorem schedule_store_deadline_policy_witness :
    ((100 : Nat) ≠ 0 ∧
      (100 : Nat) < schedule_timeout cfgA
        (atomic_set_bit noFlags PendingFlag.net)) ∧
    ((schedule_store cfgA { flags := noFlags, remaining := 100 }
        PendingFlag.net).1.remaining = 100 ∧
      (schedule_store cfgA { flags := noFlags, remaining := 100 }
        PendingFlag.net).2 = false) :=
  ⟨⟨by decide, by decide⟩,
    (schedule_store_deadline_policy cfgA
      { flags := noFlags, remaining := 100 } PendingFlag.net (by decide)).1
      (by decide)⟩

/-- C3: the timeout policy of the scheduler, evaluated on the pending
bitset current at mark time: any of network, IV or role pending selects
the fixed 500 ms workaround delay; otherwise, replay protection pending
together with either no generic category pending or a strictly shorter
replay-protection timeout selects the replay-protection timeout; in every
other case the generic store timeout is selected. -/
theorem mark_timeout_policy (cfg : Config) (f : AtomicFlags) :
    (NO_WAIT_PENDING_BITS f = true →
      schedule_timeout cfg f = 500) ∧
    (NO_WAIT_PENDING_BITS f = false → f.rplPending = true →
      (GENERIC_PENDING_BITS f = false ∨
        cfg.rplStoreTimeout < cfg.storeTimeout) →
      schedule_timeout cfg f = K_SECONDS cfg.rplStoreTimeout) ∧
    (NO_WAIT_PENDING_BITS f = false →
      (f.rplPending = false ∨
        (GENERIC_PENDING_BITS f = true ∧
          ¬ cfg.rplStoreTimeout < cfg.storeTimeout)) →
      schedule_timeout cfg f = K_SECONDS cfg.storeTimeout) := by
  refine ⟨fun hnw => ?_, fun hnw hrpl hsel => ?_, fun hnw hgen => ?_⟩
  · rw [schedule_timeout, if_pos hnw]; rfl
  · rw [schedule_timeout, if_neg (by simp [hnw]), if_pos]
    rw [hrpl]
    rcases hsel with h | h
    · simp [h]
    · simp [h]
  · rw [schedule_timeout, if_neg (by simp [hnw]), if_neg]
    rcases hgen with h | h
    · simp [h]
    · simp [h.1, h.2]

/-- Witness for C3: with only the replay-protection category pending the
replay-protection timeout is selected. -/
theorem mark_timeout_policy_witness :
    (NO_WAIT_PENDING_BITS { noFlags with rplPending := true } = false ∧
      ({ noFlags with rplPending := true } : AtomicFlags).rplPending = true) ∧
    schedule_timeout cfgA { noFlags with rplPending := true } =
      K_SECONDS cfgA.rplStoreTimeout :=
  ⟨⟨by decide, by decide⟩,
    (mark_timeout_policy cfgA { noFlags with rplPending := true }).2.1
      (by decide) (by decide) (Or.inl (by decide))⟩

/-- C10: with a positive configured store rate, bt_mesh_store_seq is a
complete no-op (state unchanged, nothing marked, no submit) unless the
in-memory sequence is an exact multiple of the rate, and on a multiple it
runs schedule_store for the sequence category, leaving the sequence
pending bit set. -/
theorem store_seq_rate_gate (cfg : Config) (seq : Nat) (s : PendingStore)
    (hr : 0 < cfg.seqStoreRate) :
    (¬ cfg.seqStoreRate ∣ seq →
      bt_mesh_store_seq cfg seq s = (s, false)) ∧
    (cfg.seqStoreRate ∣ seq →
      bt_mesh_store_seq cfg seq s = schedule_store cfg s PendingFlag.seq ∧
      (bt_mesh_store_seq cfg seq s).1.flags.seqPending = true) := by
  constructor
  · intro hnd
    rw [bt_mesh_store_seq, if_pos]
    refine ⟨by omega, ?_⟩
    intro hmod
    exact hnd (Nat.dvd_iff_mod_eq_zero.mpr hmod)
  · intro hd
    have hmod : seq % cfg.seqStoreRate = 0 :=
      Nat.dvd_iff_mod_eq_zero.mp hd
    have heq : bt_mesh_store_seq cfg seq s = schedule_store cfg s PendingFlag.seq := by
      rw [bt_mesh_store_seq, if_neg]
      intro h
      exact h.2 hmod
    refine ⟨heq, ?_⟩
    rw [heq, schedule_store]
    split
    · rfl
    · rfl

/-- Witness for C10: rate 16, sequence 5 (not a multiple) is a no-op. -/
theorem store_seq_rate_gate_witness :
    ((0 : Nat) < 16 ∧ ¬ (16 : Nat) ∣ 5) ∧
    bt_mesh_store_seq cfgB 5 { flags := noFlags, remaining := 0 } =
      ({ flags := noFlags, remaining := 0 }, false) :=
  ⟨⟨by decide, by decide⟩,
    (store_seq_rate_gate cfgB 5 { flags := noFlags, remaining := 0 }
      (by decide)).1 (by decide)⟩

/-!
The pending key-update coalescing table (struct key_update key_updates[];
settings.c).  The array is modelled as a list whose length is the
configured CONFIG_BT_MESH_APP_KEY_COUNT + CONFIG_BT_MESH_SUBNET_COUNT.
-/

/-- One entry of the key_updates table: a 12-bit key index, a validity
bit, the AppKey/NetKey discriminator and the store/clear request bit. -/
structure KeyUpdate where
  key_idx : Nat
  valid : Bool
  app_key : Bool
  clear : Bool
deriving DecidableEq, Repr

/-- A valid table entry matching the given discriminator and key index -
the condition under which key_update_find reports a match. -/
def kuMatches (u : KeyUpdate) (app_key : Bool) (key_idx : Nat) : Bool :=
  u.valid && u.app_key == app_key && u.key_idx == key_idx

/-- The scan loop of key_update_find: walks the table recording the last
invalid entry as the free slot and the last valid entry with the same
discriminator and index as the match, exactly as the C loop overwrites
match and *free_slot on every hit. -/
def key_update_find_go (app_key : Bool) (key_idx : Nat) :
    List KeyUpdate → Nat → Option Nat × Option Nat → Option Nat × Option Nat
  | [], _, acc => acc
  | u :: rest, i, acc =>
    if u.valid = false then
      key_update_find_go app_key key_idx rest (i + 1) (acc.1, some i)
    else if u.app_key ≠ app_key then
      key_update_find_go app_key key_idx rest (i + 1) acc
    else if u.key_idx = key_idx then
      key_update_find_go app_key key_idx rest (i + 1) (some i, acc.2)
    else
      key_update_find_go app_key key_idx rest (i + 1) acc

/-- key_update_find (settings.c): returns (match, free_slot) as indices
into the table. -/
def key_update_find (tbl : List KeyUpdate) (app_key : Bool) (key_idx : Nat) :
    Option Nat × Option Nat :=
  key_update_find_go app_key key_idx tbl 0 (none, none)

/-- In-place update of the array cell at a given index, as done through
the pointers returned by key_update_find. -/
def modifyAt {α : Type} : List α → Nat → (α → α) → List α
  | [], _, _ => []
  | x :: xs, 0, f => f x :: xs
  | x :: xs, n + 1, f => x :: modifyAt xs n f

theorem length_modifyAt {α : Type} (l : List α) (i : Nat) (f : α → α) :
    (modifyAt l i f).length = l.length := by
  induction l generalizing i with
  | nil => rfl
  | cons x xs ih =>
    cases i with
    | zero => rfl
    | succ n => simp [modifyAt, ih]

theorem get_modifyAt {α : Type} (l : List α) (i : Nat) (f : α → α)
    (j : Nat) (hj : j < l.length) (hj2 : j < (modifyAt l i f).length) :
    (modifyAt l i f).get ⟨j, hj2⟩ =
      if j = i then f (l.get ⟨j, hj⟩) else l.get ⟨j, hj⟩ := by
  induction l generalizing i j with
  | nil => exact absurd hj (by simp)
  | cons x xs ih =>
    cases i with
    | zero =>
      cases j with
      | zero => rfl
      | succ m => simp [modifyAt]
    | succ n =>
      cases j with
      | zero => simp [modifyAt]
      | succ m =>
        have hm : m < xs.length := by simpa using hj
        have hm2 : m < (modifyAt xs n f).length := by
          rw [length_modifyAt]; exact hm
        simp only [modifyAt, List.get_cons_succ]
        rw [ih n m hm hm2]
        by_cases h : m = n
        · rw [if_pos h, if_pos (by omega)]
        · rw [if_neg h, if_neg (by omega)]

theorem mem_modifyAt {α : Type} (l : List α) (i : Nat) (f : α → α)
    (u : α) (hu : u ∈ modifyAt l i f) :
    u ∈ l ∨ ∃ hi : i < l.length, u = f (l.get ⟨i, hi⟩) := by
  induction l generalizing i with
  | nil => exact absurd hu (by simp [modifyAt])
  | cons x xs ih =>
    cases i with
    | zero =>
      rcases List.mem_cons.mp hu with h | h
      · exact Or.inr ⟨by simp, h⟩
      · exact Or.inl (List.mem_cons_of_mem _ h)
    | succ n =>
      rcases List.mem_cons.mp hu with h | h
      · exact Or.inl (h ▸ List.mem_cons_self _ _)
      · rcases ih n h with h2 | ⟨hn, h2⟩
        · exact Or.inl (List.mem_cons_of_mem _ h2)
        · exact Or.inr ⟨by simpa using Nat.succ_lt_succ hn, h2⟩

theorem countP_modifyAt {α : Type} (p : α → Bool) (l : List α) (j : Nat)
    (f : α → α) (hj : j < l.length) :
    (modifyAt l j f).countP p + (if p (l.get ⟨j, hj⟩) then 1 else 0) =
      l.countP p + (if p (f (l.get ⟨j, hj⟩)) then 1 else 0) := by
  induction l generalizing j with
  | nil => exact absurd hj (by simp)
  | cons x xs ih =>
    cases j with
    | zero =>
      simp only [modifyAt, List.countP_cons, List.get]
      by_cases h1 : p x <;> by_cases h2 : p (f x) <;> simp [h1, h2]
    | succ n =>
      have hn : n < xs.length := by simpa using hj
      have hrec := ih n hn
      simp only [modifyAt, List.countP_cons, List.get_cons_succ,
        List.get_eq_getElem] at hrec ⊢
      by_cases h1 : p x <;> simp [h1] <;> omega

theorem ku_go_match_none (a : Bool) (k : Nat) (l : List KeyUpdate) :
    ∀ (i : Nat) (acc : Option Nat × Option Nat),
      (∀ u ∈ l, kuMatches u a k = false) →
      (key_update_find_go a k l i acc).1 = acc.1 := by
  induction l with
  | nil => intro i acc h; rfl
  | cons u rest ih =>
    intro i acc h
    have hrest : ∀ v ∈ rest, kuMatches v a k = false :=
      fun v hv => h v (List.mem_cons_of_mem _ hv)
    have hu : kuMatches u a k = false := h u (List.mem_cons_self _ _)
    rw [key_update_find_go]
    by_cases h1 : u.valid = false
    · rw [if_pos h1]; exact ih _ _ hrest
    · rw [if_neg h1]
      have hval : u.valid = true := by revert h1; cases u.valid <;> simp
      by_cases h2 : u.app_key ≠ a
      · rw [if_pos h2]; exact ih _ _ hrest
      · rw [if_neg h2]
        have h2eq : u.app_key = a := not_not.mp h2
        by_cases h3 : u.key_idx = k
        · exact absurd hu (by simp [kuMatches, hval, h2eq, h3])
        · rw [if_neg h3]; exact ih _ _ hrest

theorem ku_go_all_valid_nomatch (a : Bool) (k : Nat) (l : List KeyUpdate) :
    ∀ (i : Nat) (acc : Option Nat × Option Nat),
      (∀ u ∈ l, u.valid = true ∧ kuMatches u a k = false) →
      key_update_find_go a k l i acc = acc := by
  induction l with
  | nil => intro i acc h; rfl
  | cons u rest ih =>
    intro i acc h
    have hrest : ∀ v ∈ rest, v.valid = true ∧ kuMatches v a k = false :=
      fun v hv => h v (List.mem_cons_of_mem _ hv)
    obtain ⟨hval, hu⟩ := h u (List.mem_cons_self _ _)
    rw [key_update_find_go]
    rw [if_neg (by simp [hval])]
    by_cases h2 : u.app_key ≠ a
    · rw [if_pos h2]; exact ih _ _ hrest
    · rw [if_neg h2]
      have h2eq : u.app_key = a := not_not.mp h2
      by_cases h3 : u.key_idx = k
      · exact absurd hu (by simp [kuMatches, hval, h2eq, h3])
      · rw [if_neg h3]; exact ih _ _ hrest

theorem ku_go_match_spec (a : Bool) (k : Nat) (l : List KeyUpdate) :
    ∀ (i : Nat) (acc : Option Nat × Option Nat) (m : Nat),
      (key_update_find_go a k l i acc).1 = some m →
      acc.1 = some m ∨
        ∃ j, ∃ hj : j < l.length,
          kuMatches (l.get ⟨j, hj⟩) a k = true ∧ m = i + j := by
  induction l with
  | nil => intro i acc m h; exact Or.inl h
  | cons u rest ih =>
    intro i acc m h
    rw [key_update_find_go] at h
    have step : ∀ acc2 : Option Nat × Option Nat,
        (key_update_find_go a k rest (i + 1) acc2).1 = some m →
        acc2.1 = some m ∨
          ∃ j, ∃ hj : j < (u :: rest).length,
            kuMatches ((u :: rest).get ⟨j, hj⟩) a k = true ∧ m = i + j := by
      intro acc2 h2
      rcases ih (i + 1) acc2 m h2 with h3 | ⟨j, hj, hmt, hm⟩
      · exact Or.inl h3
      · refine Or.inr ⟨j + 1, by simpa using Nat.succ_lt_succ hj, ?_, by omega⟩
        simpa using hmt
    by_cases h1 : u.valid = false
    · rw [if_pos h1] at h
      rcases step _ h with h3 | h3
      · exact Or.inl h3
      · exact Or.inr h3
    · rw [if_neg h1] at h
      have hval : u.valid = true := by revert h1; cases u.valid <;> simp
      by_cases h2 : u.app_key ≠ a
      · rw [if_pos h2] at h
        exact step _ h
      · rw [if_neg h2] at h
        have h2eq : u.app_key = a := not_not.mp h2
        by_cases h3 : u.key_idx = k
        · rw [if_pos h3] at h
          rcases step _ h with h4 | h4
          · have hm : m = i := by
              have := h4
              simp at this
              omega
            refine Or.inr ⟨0, by simp, ?_, by omega⟩
            simp [kuMatches, hval, h2eq, h3]
          · exact Or.inr h4
        · rw [if_neg h3] at h
          exact step _ h

theorem ku_go_match_mono (a : Bool) (k : Nat) (l : List KeyUpdate) :
    ∀ (i : Nat) (acc : Option Nat × Option Nat),
      acc.1.isSome → (key_update_find_go a k l i acc).1.isSome := by
  induction l with
  | nil => intro i acc h; exact h
  | cons u rest ih =>
    intro i acc h
    rw [key_update_find_go]
    by_cases h1 : u.valid = false
    · rw [if_pos h1]; exact ih _ _ h
    · rw [if_neg h1]
      by_cases h2 : u.app_key ≠ a
      · rw [if_pos h2]; exact ih _ _ h
      · rw [if_neg h2]
        by_cases h3 : u.key_idx = k
        · rw [if_pos h3]; exact ih _ _ (by simp)
        · rw [if_neg h3]; exact ih _ _ h

theorem ku_go_match_some (a : Bool) (k : Nat) (l : List KeyUpdate) :
    ∀ (i : Nat) (acc : Option Nat × Option Nat),
      (∃ u ∈ l, kuMatches u a k = true) →
      (key_update_find_go a k l i acc).1.isSome := by
  induction l with
  | nil => intro i acc h; exact absurd h (by simp)
  | cons u rest ih =>
    intro i acc h
    rw [key_update_find_go]
    rcases h with ⟨v, hv, hmt⟩
    rcases List.mem_cons.mp hv with rfl | hv2
    · simp only [kuMatches, Bool.and_eq_true, beq_iff_eq] at hmt
      obtain ⟨⟨hval, h2eq⟩, h3eq⟩ := hmt
      rw [if_neg (by simp [hval]), if_neg (by simp [h2eq]), if_pos h3eq]
      exact ku_go_match_mono a k rest _ _ (by simp)
    · have hex : ∃ w ∈ rest, kuMatches w a k = true := ⟨v, hv2, hmt⟩
      by_cases h1 : u.valid = false
      · rw [if_pos h1]; exact ih _ _ hex
      · rw [if_neg h1]
        by_cases h2 : u.app_key ≠ a
        · rw [if_pos h2]; exact ih _ _ hex
        · rw [if_neg h2]
          by_cases h3 : u.key_idx = k
          · rw [if_pos h3]; exact ih _ _ hex
          · rw [if_neg h3]; exact ih _ _ hex

theorem ku_go_free_spec (a : Bool) (k : Nat) (l : List KeyUpdate) :
    ∀ (i : Nat) (acc : Option Nat × Option Nat) (m : Nat),
      (key_update_find_go a k l i acc).2 = some m →
      acc.2 = some m ∨
        ∃ j, ∃ hj : j < l.length,
          (l.get ⟨j, hj⟩).valid = false ∧ m = i + j := by
  induction l with
  | nil => intro i acc m h; exact Or.inl h
  | cons u rest ih =>
    intro i acc m h
    rw [key_update_find_go] at h
    have step : ∀ acc2 : Option Nat × Option Nat,
        (key_update_find_go a k rest (i + 1) acc2).2 = some m →
        acc2.2 = some m ∨
          ∃ j, ∃ hj : j < (u :: rest).length,
            ((u :: rest).get ⟨j, hj⟩).valid = false ∧ m = i + j := by
      intro acc2 h2
      rcases ih (i + 1) acc2 m h2 with h3 | ⟨j, hj, hmt, hm⟩
      · exact Or.inl h3
      · refine Or.inr ⟨j + 1, by simpa using Nat.succ_lt_succ hj, ?_, by omega⟩
        simpa using hmt
    by_cases h1 : u.valid = false
    · rw [if_pos h1] at h
      rcases step _ h with h4 | h4
      · have hm : m = i := by simp at h4; omega
        exact Or.inr ⟨0, by simp, by simpa using h1, by omega⟩
      · exact Or.inr h4
    · rw [if_neg h1] at h
      by_cases h2 : u.app_key ≠ a
      · rw [if_pos h2] at h; exact step _ h
      · rw [if_neg h2] at h
        by_cases h3 : u.key_idx = k
        · rw [if_pos h3] at h
          rcases step _ h with h4 | h4
          · exact Or.inl h4
          · exact Or.inr h4
        · rw [if_neg h3] at h; exact step _ h

theorem ku_go_free_mono (a : Bool) (k : Nat) (l : List KeyUpdate) :
    ∀ (i : Nat) (acc : Option Nat × Option Nat),
      acc.2.isSome → (key_update_find_go a k l i acc).2.isSome := by
  induction l with
  | nil => intro i acc h; exact h
  | cons u rest ih =>
    intro i acc h
    rw [key_update_find_go]
    by_cases h1 : u.valid = false
    · rw [if_pos h1]; exact ih _ _ (by simp)
    · rw [if_neg h1]
      by_cases h2 : u.app_key ≠ a
      · rw [if_pos h2]; exact ih _ _ h
      · rw [if_neg h2]
        by_cases h3 : u.key_idx = k
        · rw [if_pos h3]; exact ih _ _ h
        · rw [if_neg h3]; exact ih _ _ h

theorem ku_go_free_some (a : Bool) (k : Nat) (l : List KeyUpdate) :
    ∀ (i : Nat) (acc : Option Nat × Option Nat),
      (∃ u ∈ l, u.valid = false) →
      (key_update_find_go a k l i acc).2.isSome := by
  induction l with
  | nil => intro i acc h; exact absurd h (by simp)
  | cons u rest ih =>
    intro i acc h
    rw [key_update_find_go]
    rcases h with ⟨v, hv, hval⟩
    rcases List.mem_cons.mp hv with rfl | hv2
    · rw [if_pos hval]
      exact ku_go_free_mono a k rest _ _ (by simp)
    · have hex : ∃ w ∈ rest, w.valid = false := ⟨v, hv2, hval⟩
      by_cases h1 : u.valid = false
      · rw [if_pos h1]; exact ku_go_free_mono a k rest _ _ (by simp)
      · rw [if_neg h1]
        by_cases h2 : u.app_key ≠ a
        · rw [if_pos h2]; exact ih _ _ hex
        · rw [if_neg h2]
          by_cases h3 : u.key_idx = k
          · rw [if_pos h3]; exact ih _ _ hex
          · rw [if_neg h3]; exact ih _ _ hex

theorem key_update_find_match_none (tbl : List KeyUpdate) (a : Bool) (k : Nat)
    (h : ∀ u ∈ tbl, kuMatches u a k = false) :
    (key_update_find tbl a k).1 = none :=
  ku_go_match_none a k tbl 0 (none, none) h

theorem key_update_find_free_isSome (tbl : List KeyUpdate) (a : Bool) (k : Nat)
    (h : ∃ u ∈ tbl, u.valid = false) :
    (key_update_find tbl a k).2.isSome :=
  ku_go_free_some a k tbl 0 (none, none) h

theorem key_update_find_match_isSome (tbl : List KeyUpdate) (a : Bool) (k : Nat)
    (h : ∃ u ∈ tbl, kuMatches u a k = true) :
    (key_update_find tbl a k).1.isSome :=
  ku_go_match_some a k tbl 0 (none, none) h

theorem key_update_find_free_spec (tbl : List KeyUpdate) (a : Bool) (k : Nat)
    (m : Nat) (h : (key_update_find tbl a k).2 = some m) :
    ∃ hm : m < tbl.length, (tbl.get ⟨m, hm⟩).valid = false := by
  rcases ku_go_free_spec a k tbl 0 (none, none) m h with h2 | ⟨j, hj, hv, hm⟩
  · exact absurd h2 (by simp)
  · have : m = j := by omega
    subst this
    exact ⟨hj, hv⟩

theorem key_update_find_match_spec (tbl : List KeyUpdate) (a : Bool) (k : Nat)
    (m : Nat) (h : (key_update_find tbl a k).1 = some m) :
    ∃ hm : m < tbl.length, kuMatches (tbl.get ⟨m, hm⟩) a k = true := by
  rcases ku_go_match_spec a k tbl 0 (none, none) m h with h2 | ⟨j, hj, hv, hm⟩
  · exact absurd h2 (by simp)
  · have : m = j := by omega
    subst this
    exact ⟨hj, hv⟩

theorem key_update_find_full (tbl : List KeyUpdate) (a : Bool) (k : Nat)
    (h : ∀ u ∈ tbl, u.valid = true ∧ kuMatches u a k = false) :
    key_update_find tbl a k = (none, none) :=
  ku_go_all_valid_nomatch a k tbl 0 (none, none) h

/-- A synchronous codec call made by the key store and clear entry
points: store_net_key, store_app_key, clear_net_key and clear_app_key,
identified by the discriminator and key index. -/
inductive KeyOp where
  | storeKey (app_key : Bool) (key_idx : Nat)
  | clearKey (app_key : Bool) (key_idx : Nat)
deriving DecidableEq, Repr

/-- The observable effect of one key store or clear entry point: the
updated key_updates table, whether schedule_store(BT_MESH_KEYS_PENDING)
was called, and the codec operations performed synchronously. -/
structure KeyStoreResult where
  table : List KeyUpdate
  scheduled : Bool
  syncOps : List KeyOp
deriving DecidableEq, Repr

/-- bt_mesh_store_subnet (settings.c): coalesce into an existing match by
resetting its clear bit, else populate a free slot, else (table full)
store the NetKey record synchronously through the codec without
scheduling the deferred flush. -/
def bt_mesh_store_subnet (tbl : List KeyUpdate) (net_idx : Nat) :
    KeyStoreResult :=
  match key_update_find tbl false net_idx with
  | (some i, _) =>
    { table := modifyAt tbl i (fun u => { u with clear := false }),
      scheduled := true, syncOps := [] }
  | (none, some j) =>
    { table := modifyAt tbl j (fun _ =>
        { key_idx := net_idx, valid := true, app_key := false, clear := false }),
      scheduled := true, syncOps := [] }
  | (none, none) =>
    { table := tbl, scheduled := false,
      syncOps := [KeyOp.storeKey false net_idx] }

/-- bt_mesh_store_app_key (settings.c). -/
def bt_mesh_store_app_key (tbl : List KeyUpdate) (app_idx : Nat) :
    KeyStoreResult :=
  match key_update_find tbl true app_idx with
  | (some i, _) =>
    { table := modifyAt tbl i (fun u => { u with clear := false }),
      scheduled := true, syncOps := [] }
  | (none, some j) =>
    { table := modifyAt tbl j (fun _ =>
        { key_idx := app_idx, valid := true, app_key := true, clear := false }),
      scheduled := true, syncOps := [] }
  | (none, none) =>
    { table := tbl, scheduled := false,
      syncOps := [KeyOp.storeKey true app_idx] }

/-- bt_mesh_clear_subnet (settings.c). -/
def bt_mesh_clear_subnet (tbl : List KeyUpdate) (net_idx : Nat) :
    KeyStoreResult :=
  match key_update_find tbl false net_idx with
  | (some i, _) =>
    { table := modifyAt tbl i (fun u => { u with clear := true }),
      scheduled := true, syncOps := [] }
  | (none, some j) =>
    { table := modifyAt tbl j (fun _ =>
        { key_idx := net_idx, valid := true, app_key := false, clear := true }),
      scheduled := true, syncOps := [] }
  | (none, none) =>
    { table := tbl, scheduled := false,
      syncOps := [KeyOp.clearKey false net_idx] }

/-- bt_mesh_clear_app_key (settings.c). -/
def bt_mesh_clear_app_key (tbl : List KeyUpdate) (app_idx : Nat) :
    KeyStoreResult :=
  match key_update_find tbl true app_idx with
  | (some i, _) =>
    { table := modifyAt tbl i (fun u => { u with clear := true }),
      scheduled := true, syncOps := [] }
  | (none, some j) =>
    { table := modifyAt tbl j (fun _ =>
        { key_idx := app_idx, valid := true, app_key := true, clear := true }),
      scheduled := true, syncOps := [] }
  | (none, none) =>
    { table := tbl, scheduled := false,
      syncOps := [KeyOp.clearKey true app_idx] }

/-- The codec call that one valid key_updates entry produces during the
deferred flush (store_pending_keys): a clear request always issues the
clear; a store request issues the store only when the key still exists in
the live structures (bt_mesh_app_key_find or bt_mesh_subnet_get, external
lookups passed in as the keyExists predicate), otherwise only a warning
is logged. -/
def key_update_emit (keyExists : Bool → Nat → Bool) (u : KeyUpdate) :
    Option KeyOp :=
  if u.valid then
    if u.clear then some (KeyOp.clearKey u.app_key u.key_idx)
    else if keyExists u.app_key u.key_idx then
      some (KeyOp.storeKey u.app_key u.key_idx)
    else none
  else none

/-- store_pending_keys (settings.c): walk the table once, perform the
codec call of every valid entry, and reset every valid bit. -/
def store_pending_keys (keyExists : Bool → Nat → Bool)
    (tbl : List KeyUpdate) : List KeyOp × List KeyUpdate :=
  (tbl.filterMap (key_update_emit keyExists),
    tbl.map (fun u => { u with valid := false }))

/-- Whether a codec operation concerns the given discriminator and key
index. -/
def opIsFor : KeyOp → Bool → Nat → Bool
  | KeyOp.storeKey a2 k2, a, k => a2 == a && k2 == k
  | KeyOp.clearKey a2 k2, a, k => a2 == a && k2 == k

theorem beq_pair_false {a2 a : Bool} {k2 k : Nat}
    (h : ¬ (a2 = a ∧ k2 = k)) : (a2 == a && k2 == k) = false := by
  by_cases h1 : a2 = a
  · have h2 : k2 ≠ k := fun hk => h ⟨h1, hk⟩
    simp [h1, h2]
  · simp [h1]

theorem key_update_emit_not_for (keyExists : Bool → Nat → Bool)
    (u : KeyUpdate) (a : Bool) (k : Nat)
    (h : kuMatches u a k = false) (op : KeyOp)
    (he : key_update_emit keyExists u = some op) : opIsFor op a k = false := by
  by_cases hv : u.valid = true
  · have hne : ¬ (u.app_key = a ∧ u.key_idx = k) := by
      intro ⟨h1, h2⟩
      exact absurd h (by simp [kuMatches, hv, h1, h2])
    rw [key_update_emit, if_pos hv] at he
    by_cases hc : u.clear = true
    · rw [if_pos hc] at he
      cases Option.some.inj he
      exact beq_pair_false hne
    · rw [if_neg hc] at he
      by_cases hk : keyExists u.app_key u.key_idx = true
      · rw [if_pos hk] at he
        cases Option.some.inj he
        exact beq_pair_false hne
      · rw [if_neg hk] at he
        exact absurd he (by simp)
  · rw [key_update_emit, if_neg hv] at he
    exact absurd he (by simp)

theorem ops_filter_no_match (keyExists : Bool → Nat → Bool) (a : Bool)
    (k : Nat) (l : List KeyUpdate)
    (h : ∀ u ∈ l, kuMatches u a k = false) :
    (l.filterMap (key_update_emit keyExists)).filter
      (fun op => opIsFor op a k) = [] := by
  induction l with
  | nil => rfl
  | cons u rest ih =>
    have hrest := ih (fun v hv => h v (List.mem_cons_of_mem _ hv))
    have hu := h u (List.mem_cons_self _ _)
    rw [List.filterMap_cons]
    cases he : key_update_emit keyExists u with
    | none => exact hrest
    | some op =>
      rw [List.filter_cons_of_neg]
      · exact hrest
      · simp [key_update_emit_not_for keyExists u a k hu op he]

theorem ops_filter_single_clear (keyExists : Bool → Nat → Bool) (a : Bool)
    (k : Nat) (l : List KeyUpdate) :
    ∀ j : Nat, j < l.length →
    (∀ u ∈ l, kuMatches u a k = false) →
    ((modifyAt l j (fun _ =>
        { key_idx := k, valid := true, app_key := a, clear := true })).filterMap
      (key_update_emit keyExists)).filter (fun op => opIsFor op a k) =
      [KeyOp.clearKey a k] := by
  induction l with
  | nil => intro j hj h; exact absurd hj (by simp)
  | cons u rest ih =>
    intro j hj h
    have hrest : ∀ v ∈ rest, kuMatches v a k = false :=
      fun v hv => h v (List.mem_cons_of_mem _ hv)
    cases j with
    | zero =>
      rw [modifyAt, List.filterMap_cons]
      have he : key_update_emit keyExists
          { key_idx := k, valid := true, app_key := a, clear := true } =
          some (KeyOp.clearKey a k) := by
        rw [key_update_emit]
        rfl
      rw [he, List.filter_cons_of_pos]
      · rw [ops_filter_no_match keyExists a k rest hrest]
      · simp [opIsFor]
    | succ n =>
      have hn : n < rest.length := by simpa using hj
      rw [modifyAt, List.filterMap_cons]
      cases he : key_update_emit keyExists u with
      | none => exact ih n hn hrest
      | some op =>
        rw [List.filter_cons_of_neg]
        · exact ih n hn hrest
        · simp [key_update_emit_not_for keyExists u a k
            (h u (List.mem_cons_self _ _)) op he]

/-- C4: scheduling a store intent for a NetKey index and then a clear
intent for the same index before the deferred flush runs coalesces into a
single valid pending-update entry with the clear flag set, and the flush
then performs exactly one clear operation for that index (and no store),
invalidating every entry.  Preconditions: the table holds no valid entry
for the index yet and has at least one free slot, so the first intent is
actually deferred. -/
theorem key_update_coalesce (tbl : List KeyUpdate) (net_idx : Nat)
    (keyExists : Bool → Nat → Bool)
    (hnm : ∀ u ∈ tbl, kuMatches u false net_idx = false)
    (hfree : ∃ u ∈ tbl, u.valid = false) :
    ((bt_mesh_clear_subnet (bt_mesh_store_subnet tbl net_idx).table
        net_idx).table.countP (fun u => kuMatches u false net_idx) = 1) ∧
    (∀ u ∈ (bt_mesh_clear_subnet (bt_mesh_store_subnet tbl net_idx).table
        net_idx).table, kuMatches u false net_idx = true → u.clear = true) ∧
    ((store_pending_keys keyExists
        (bt_mesh_clear_subnet (bt_mesh_store_subnet tbl net_idx).table
          net_idx).table).1.filter (fun op => opIsFor op false net_idx) =
      [KeyOp.clearKey false net_idx]) ∧
    (∀ u ∈ (store_pending_keys keyExists
        (bt_mesh_clear_subnet (bt_mesh_store_subnet tbl net_idx).table
          net_idx).table).2, u.valid = false) := by
  have hm0 : (key_update_find tbl false net_idx).1 = none :=
    key_update_find_match_none tbl false net_idx hnm
  have hf0 : (key_update_find tbl false net_idx).2.isSome :=
    key_update_find_free_isSome tbl false net_idx hfree
  obtain ⟨j, hj⟩ : ∃ j, (key_update_find tbl false net_idx).2 = some j :=
    Option.isSome_iff_exists.mp hf0
  obtain ⟨hjlen, hjvalid⟩ := key_update_find_free_spec tbl false net_idx j hj
  have hfind : key_update_find tbl false net_idx = (none, some j) := by
    rw [← hm0, ← hj]
  have ht1 : (bt_mesh_store_subnet tbl net_idx).table =
      modifyAt tbl j (fun _ =>
        { key_idx := net_idx, valid := true, app_key := false,
          clear := false }) := by
    rw [bt_mesh_store_subnet, hfind]
  set e1 : KeyUpdate :=
    { key_idx := net_idx, valid := true, app_key := false, clear := false }
    with he1
  set T1 : List KeyUpdate := modifyAt tbl j (fun _ => e1) with hT1def
  have hT1len : T1.length = tbl.length := length_modifyAt tbl j _
  have ht1get : ∀ (n : Nat) (hn : n < tbl.length) (hn2 : n < T1.length),
      T1.get ⟨n, hn2⟩ = if n = j then e1 else tbl.get ⟨n, hn⟩ :=
    fun n hn hn2 => get_modifyAt tbl j _ n hn hn2
  have hjlen1 : j < T1.length := by rw [hT1len]; exact hjlen
  have hmem : e1 ∈ T1 := by
    have hg := ht1get j hjlen hjlen1
    rw [if_pos rfl] at hg
    rw [← hg]
    exact T1.get_mem _ _
  have hsome1 : (key_update_find T1 false net_idx).1.isSome :=
    key_update_find_match_isSome T1 false net_idx
      ⟨e1, hmem, by simp [kuMatches, he1]⟩
  obtain ⟨m2, hm2⟩ : ∃ m2, (key_update_find T1 false net_idx).1 = some m2 :=
    Option.isSome_iff_exists.mp hsome1
  obtain ⟨hm2len, hm2match⟩ :=
    key_update_find_match_spec T1 false net_idx m2 hm2
  have hm2j : m2 = j := by
    by_contra hne
    have hn : m2 < tbl.length := by rw [← hT1len]; exact hm2len
    have hg := ht1get m2 hn hm2len
    rw [if_neg hne] at hg
    rw [hg] at hm2match
    have hfalse : kuMatches (tbl.get ⟨m2, hn⟩) false net_idx = false :=
      hnm _ (tbl.get_mem _ _)
    rw [hm2match] at hfalse
    exact absurd hfalse (by decide)
  subst hm2j
  have hfind2 : key_update_find T1 false net_idx =
      (some m2, (key_update_find T1 false net_idx).2) := by
    rw [← hm2]
  have ht2 : (bt_mesh_clear_subnet T1 net_idx).table =
      modifyAt T1 m2 (fun u => { u with clear := true }) := by
    rw [bt_mesh_clear_subnet, hfind2]
  set e2 : KeyUpdate :=
    { key_idx := net_idx, valid := true, app_key := false, clear := true }
    with he2
  have ht2form : modifyAt T1 m2 (fun u => { u with clear := true }) =
      modifyAt tbl m2 (fun _ => e2) := by
    apply List.ext_get
    · simp only [length_modifyAt, hT1len]
    · intro n h1 h2
      have hnT : n < tbl.length := by
        rw [← hT1len, ← length_modifyAt T1 m2 (fun u => { u with clear := true })]
        exact h1
      have hnT1 : n < T1.length := by rw [hT1len]; exact hnT
      rw [get_modifyAt T1 m2 _ n hnT1 h1, get_modifyAt tbl m2 _ n hnT h2]
      by_cases hnj : n = m2
      · subst hnj
        rw [if_pos rfl, if_pos rfl, ht1get n hnT hnT1, if_pos rfl]
      · rw [if_neg hnj, if_neg hnj, ht1get n hnT hnT1, if_neg hnj]
  have hT2 : (bt_mesh_clear_subnet (bt_mesh_store_subnet tbl net_idx).table
      net_idx).table = modifyAt tbl m2 (fun _ => e2) := by
    rw [ht1, ht2, ht2form]
  refine ⟨?_, ?_, ?_, ?_⟩
  · have hcount := countP_modifyAt (fun u => kuMatches u false net_idx)
      tbl m2 (fun _ => e2) hjlen
    have hz : tbl.countP (fun u => kuMatches u false net_idx) = 0 :=
      List.countP_eq_zero.mpr (fun u hu => by simp [hnm u hu])
    have hpj : kuMatches (tbl.get ⟨m2, hjlen⟩) false net_idx = false :=
      hnm _ (tbl.get_mem _ _)
    rw [hT2]
    simp only [hpj, hz, he2] at hcount ⊢
    simpa [kuMatches] using hcount
  · intro u hu hmt
    rw [hT2] at hu
    rcases mem_modifyAt tbl m2 _ u hu with h2 | ⟨hi, h2⟩
    · exact absurd hmt (by simp [hnm u h2])
    · rw [h2]
  · rw [hT2]
    exact ops_filter_single_clear keyExists false net_idx tbl m2 hjlen hnm
  · intro u hu
    simp only [store_pending_keys, List.mem_map] at hu
    obtain ⟨v, hv, rfl⟩ := hu
    rfl

/-- A free (invalid) key_updates slot, for concrete instances. -/
def kuFreeSlot : KeyUpdate :=
  { key_idx := 0, valid := false, app_key := false, clear := false }

/-- Witness for C4: a one-slot empty table, NetKey index 5; the
coalesced result is a single clear operation for index 5. -/
theorem key_update_coalesce_witness :
    ((∀ u ∈ [kuFreeSlot], kuMatches u false 5 = false) ∧
      (∃ u ∈ [kuFreeSlot], u.valid = false)) ∧
    ((bt_mesh_clear_subnet (bt_mesh_store_subnet [kuFreeSlot] 5).table
        5).table.countP (fun u => kuMatches u false 5) = 1) ∧
    (∀ u ∈ (bt_mesh_clear_subnet (bt_mesh_store_subnet [kuFreeSlot] 5).table
        5).table, kuMatches u false 5 = true → u.clear = true) ∧
    ((store_pending_keys (fun _ _ => true)
        (bt_mesh_clear_subnet (bt_mesh_store_subnet [kuFreeSlot] 5).table
          5).table).1.filter (fun op => opIsFor op false 5) =
      [KeyOp.clearKey false 5]) ∧
    (∀ u ∈ (store_pending_keys (fun _ _ => true)
        (bt_mesh_clear_subnet (bt_mesh_store_subnet [kuFreeSlot] 5).table
          5).table).2, u.valid = false) :=
  ⟨⟨by decide, by decide⟩,
    key_update_coalesce [kuFreeSlot] 5 (fun _ _ => true)
      (by decide) (by decide)⟩

/-!
The pending node-update table (struct node_update node_updates[];
settings.c, provisioner builds), with BT_MESH_ADDR_UNASSIGNED = 0 used as
the free-slot marker.
-/

/-- One entry of the node_updates table. -/
structure NodeUpdate where
  addr : Nat
  clear : Bool
deriving DecidableEq, Repr

/-- The scan loop of node_update_find: the last entry with unassigned
address is the free slot, the last entry with the sought address is the
match. -/
def node_update_find_go (addr : Nat) :
    List NodeUpdate → Nat → Option Nat × Option Nat → Option Nat × Option Nat
  | [], _, acc => acc
  | u :: rest, i, acc =>
    if u.addr = 0 then
      node_update_find_go addr rest (i + 1) (acc.1, some i)
    else if u.addr = addr then
      node_update_find_go addr rest (i + 1) (some i, acc.2)
    else
      node_update_find_go addr rest (i + 1) acc

/-- node_update_find (settings.c). -/
def node_update_find (tbl : List NodeUpdate) (addr : Nat) :
    Option Nat × Option Nat :=
  node_update_find_go addr tbl 0 (none, none)

/-- A synchronous codec call made by the node store and clear entry
points (store_node / clear_node). -/
inductive NodeOp where
  | storeNode (addr : Nat)
  | clearNode (addr : Nat)
deriving DecidableEq, Repr

/-- The observable effect of bt_mesh_store_node or bt_mesh_clear_node. -/
structure NodeStoreResult where
  table : List NodeUpdate
  scheduled : Bool
  syncOps : List NodeOp
deriving DecidableEq, Repr

/-- bt_mesh_store_node (settings.c): coalesce into an existing match,
else take a free slot (the code only assigns the address there, leaving
the stale clear bit), else store the node record synchronously. -/
def bt_mesh_store_node (tbl : List NodeUpdate) (addr : Nat) :
    NodeStoreResult :=
  match node_update_find tbl addr with
  | (some i, _) =>
    { table := modifyAt tbl i (fun u => { u with clear := false }),
      scheduled := true, syncOps := [] }
  | (none, some j) =>
    { table := modifyAt tbl j (fun u => { u with addr := addr }),
      scheduled := true, syncOps := [] }
  | (none, none) =>
    { table := tbl, scheduled := false, syncOps := [NodeOp.storeNode addr] }

/-- bt_mesh_clear_node (settings.c). -/
def bt_mesh_clear_node (tbl : List NodeUpdate) (addr : Nat) :
    NodeStoreResult :=
  match node_update_find tbl addr with
  | (some i, _) =>
    { table := modifyAt tbl i (fun u => { u with clear := true }),
      scheduled := true, syncOps := [] }
  | (none, some j) =>
    { table := modifyAt tbl j (fun u => { u with addr := addr }),
      scheduled := true, syncOps := [] }
  | (none, none) =>
    { table := tbl, scheduled := false, syncOps := [NodeOp.clearNode addr] }

theorem node_go_full (addr : Nat) (l : List NodeUpdate) :
    ∀ (i : Nat) (acc : Option Nat × Option Nat),
      (∀ u ∈ l, u.addr ≠ 0 ∧ u.addr ≠ addr) →
      node_update_find_go addr l i acc = acc := by
  induction l with
  | nil => intro i acc h; rfl
  | cons u rest ih =>
    intro i acc h
    obtain ⟨h0, ha⟩ := h u (List.mem_cons_self _ _)
    rw [node_update_find_go, if_neg h0, if_neg ha]
    exact ih _ _ (fun v hv => h v (List.mem_cons_of_mem _ hv))

theorem node_update_find_full (tbl : List NodeUpdate) (addr : Nat)
    (h : ∀ u ∈ tbl, u.addr ≠ 0 ∧ u.addr ≠ addr) :
    node_update_find tbl addr = (none, none) :=
  node_go_full addr tbl 0 (none, none) h

/-- C8: when the pending-update table has no matching entry and no free
slot, a store or clear intent is honoured synchronously through the codec
right away: the table is untouched, the deferred flush is not scheduled,
and exactly the one expected codec operation is issued (the C entry
points return void, so no capacity error reaches the caller).  Shown for
NetKey store, AppKey clear, node store and node clear. -/
theorem key_table_full_synchronous (tbl : List KeyUpdate)
    (ntbl : List NodeUpdate) (net_idx app_idx addr : Nat)
    (hval : ∀ u ∈ tbl, u.valid = true)
    (hnm1 : ∀ u ∈ tbl, kuMatches u false net_idx = false)
    (hnm2 : ∀ u ∈ tbl, kuMatches u true app_idx = false)
    (hnfull : ∀ u ∈ ntbl, u.addr ≠ 0 ∧ u.addr ≠ addr) :
    bt_mesh_store_subnet tbl net_idx =
      { table := tbl, scheduled := false,
        syncOps := [KeyOp.storeKey false net_idx] } ∧
    bt_mesh_clear_app_key tbl app_idx =
      { table := tbl, scheduled := false,
        syncOps := [KeyOp.clearKey true app_idx] } ∧
    bt_mesh_store_node ntbl addr =
      { table := ntbl, scheduled := false,
        syncOps := [NodeOp.storeNode addr] } ∧
    bt_mesh_clear_node ntbl addr =
      { table := ntbl, scheduled := false,
        syncOps := [NodeOp.clearNode addr] } := by
  have hfind1 : key_update_find tbl false net_idx = (none, none) :=
    key_update_find_full tbl false net_idx
      (fun u hu => ⟨hval u hu, hnm1 u hu⟩)
  have hfind2 : key_update_find tbl true app_idx = (none, none) :=
    key_update_find_full tbl true app_idx
      (fun u hu => ⟨hval u hu, hnm2 u hu⟩)
  have hfind3 : node_update_find ntbl addr = (none, none) :=
    node_update_find_full ntbl addr hnfull
  refine ⟨?_, ?_, ?_, ?_⟩
  · rw [bt_mesh_store_subnet, hfind1]
  · rw [bt_mesh_clear_app_key, hfind2]
  · rw [bt_mesh_store_node, hfind3]
  · rw [bt_mesh_clear_node, hfind3]

/-- An occupied key_updates slot (valid NetKey entry for index 7). -/
def kuBusySlot : KeyUpdate :=
  { key_idx := 7, valid := true, app_key := false, clear := false }

/-- An occupied node_updates slot (address 3). -/
def nuBusySlot : NodeUpdate := { addr := 3, clear := false }

/-- Witness for C8: one-slot tables already occupied by an unrelated key
and node; a store intent for NetKey 5 is written synchronously. -/
theorem key_table_full_synchronous_witness :
    ((∀ u ∈ [kuBusySlot], u.valid = true) ∧
      (∀ u ∈ [kuBusySlot], kuMatches u false 5 = false) ∧
      (∀ u ∈ [nuBusySlot], u.addr ≠ 0 ∧ u.addr ≠ 9)) ∧
    bt_mesh_store_subnet [kuBusySlot] 5 =
      { table := [kuBusySlot], scheduled := false,
        syncOps := [KeyOp.storeKey false 5] } :=
  ⟨⟨by decide, by decide, by decide⟩,
    (key_table_full_synchronous [kuBusySlot] [nuBusySlot] 5 5 9
      (by decide) (by decide) (by decide) (by decide)).1⟩

/-!
The deferred flush body store_pending and the load/commit sequence
(settings.c).  The per-category store routines and their external
callees are represented by the category-tagged operations they issue to
the key-value store.
-/

/-- A storage category processed by store_pending, in its fixed order. -/
inductive StoreCat where
  | rpl | keys | net | iv | seq | hbPub | cfg | mod | va | role | nodes
deriving DecidableEq, Repr

/-- A codec invocation of the flush: store the current value of a
category, or clear its key(s). -/
inductive FlushOp where
  | store (c : StoreCat)
  | clearCat (c : StoreCat)
deriving DecidableEq, Repr

theorem list_mem_if_nil {α : Type} {c : Prop} [Decidable c] {a : α}
    {l : List α} : (a ∈ if c then l else []) ↔ c ∧ a ∈ l := by
  split
  · simp [*]
  · simp [*]

theorem list_mem_if_pair {α : Type} {c : Prop} [Decidable c] {a : α}
    {l1 l2 : List α} :
    (a ∈ if c then l1 else l2) ↔ (c ∧ a ∈ l1) ∨ (¬ c ∧ a ∈ l2) := by
  split
  · simp [*]
  · simp [*]

/-- The sequence of codec invocations performed by one run of
store_pending (settings.c), for a provisioner-enabled build: each pending
category is tested (and cleared) in the fixed order replay-protection,
keys, network, IV, sequence, heartbeat publication, configuration,
models, virtual addresses, role, nodes; the replay-protection, network,
IV and configuration categories store only while BT_MESH_VALID is set and
otherwise clear their keys. -/
def store_pending_ops (f : AtomicFlags) : List FlushOp :=
  (if f.rplPending then
    (if f.valid then [FlushOp.store StoreCat.rpl]
     else [FlushOp.clearCat StoreCat.rpl]) else []) ++
  (if f.keysPending then [FlushOp.store StoreCat.keys] else []) ++
  (if f.netPending then
    (if f.valid then [FlushOp.store StoreCat.net]
     else [FlushOp.clearCat StoreCat.net]) else []) ++
  (if f.ivPending then
    (if f.valid then [FlushOp.store StoreCat.iv]
     else [FlushOp.clearCat StoreCat.iv]) else []) ++
  (if f.seqPending then [FlushOp.store StoreCat.seq] else []) ++
  (if f.hbPubPending then [FlushOp.store StoreCat.hbPub] else []) ++
  (if f.cfgPending then
    (if f.valid then [FlushOp.store StoreCat.cfg]
     else [FlushOp.clearCat StoreCat.cfg]) else []) ++
  (if f.modPending then [FlushOp.store StoreCat.mod] else []) ++
  (if f.vaPending then [FlushOp.store StoreCat.va] else []) ++
  (if f.rolePending then [FlushOp.store StoreCat.role] else []) ++
  (if f.nodesPending then [FlushOp.store StoreCat.nodes] else [])

/-- store_pending (settings.c): performs the category operations and,
through atomic_test_and_clear_bit, leaves every pending bit cleared. -/
def store_pending (f : AtomicFlags) : List FlushOp × AtomicFlags :=
  (store_pending_ops f,
    { f with
      netPending := false, ivPending := false, seqPending := false,
      rplPending := false, keysPending := false, hbPubPending := false,
      cfgPending := false, modPending := false, vaPending := false,
      rolePending := false, nodesPending := false })

/-- C9: during a deferred flush, each of the network, IV and
configuration categories, when pending, is written to the store exactly
when overall state is marked valid, and cleared (zero-length write)
exactly when it is not. -/
theorem store_pending_valid_gate (f : AtomicFlags) :
    (FlushOp.store StoreCat.net ∈ store_pending_ops f ↔
      f.netPending = true ∧ f.valid = true) ∧
    (FlushOp.clearCat StoreCat.net ∈ store_pending_ops f ↔
      f.netPending = true ∧ f.valid = false) ∧
    (FlushOp.store StoreCat.iv ∈ store_pending_ops f ↔
      f.ivPending = true ∧ f.valid = true) ∧
    (FlushOp.clearCat StoreCat.iv ∈ store_pending_ops f ↔
      f.ivPending = true ∧ f.valid = false) ∧
    (FlushOp.store StoreCat.cfg ∈ store_pending_ops f ↔
      f.cfgPending = true ∧ f.valid = true) ∧
    (FlushOp.clearCat StoreCat.cfg ∈ store_pending_ops f ↔
      f.cfgPending = true ∧ f.valid = false) := by
  cases hvalid : f.valid <;>
    simp [store_pending_ops, list_mem_if_nil, list_mem_if_pair, hvalid]

/-!
The load and commit sequence.  mesh_commit touches many external
structures (subnets, model timers, the heartbeat service); its externally
visible activation steps are represented as an explicit action trace, and
the runtime state it reads is collected in MeshState.
-/

/-- The runtime state consulted by bt_mesh_settings_load and mesh_commit:
the role and valid bits of bt_mesh.flags, whether sub[0] holds a netkey
(provisioned), the IV-update duration, the heartbeat publication fields
and the staged configuration snapshot flag. -/
structure MeshState where
  node : Bool
  provisioner : Bool
  valid : Bool
  sub0Used : Bool
  ivuDuration : Nat
  hbDst : Nat
  hbCount : Nat
  hbPeriod : Nat
  storedCfgValid : Bool
deriving DecidableEq, Repr

/-- The externally visible activation steps of mesh_commit. -/
inductive CommitAction where
  | provDisable
  | subnetsInit
  | armIvuTimer
  | commitModels
  | startHbTimer
  | copyStoredCfg
  | markValid
  | netStart
deriving DecidableEq, Repr

/-- mesh_commit (settings.c): a no-op while unprovisioned (sub[0]
unused); otherwise disables PB-GATT provisioning, derives the key
material of every used subnet, arms the IV-update timer when the restored
duration is below BT_MESH_IVU_MIN_HOURS, runs the model commit callbacks,
starts heartbeat publication when a destination with nonzero count and
period was restored, copies the staged configuration when valid, sets
BT_MESH_VALID, and starts network operation unless in the provisioner
role. -/
def mesh_commit (cfg : Config) (st : MeshState) : MeshState × List CommitAction :=
  if st.sub0Used = false then (st, [])
  else
    ({ st with valid := true },
      [CommitAction.provDisable, CommitAction.subnetsInit] ++
      (if st.ivuDuration < cfg.ivuMinHours then [CommitAction.armIvuTimer]
       else []) ++
      [CommitAction.commitModels] ++
      (if st.hbDst ≠ 0 ∧ st.hbCount ≠ 0 ∧ st.hbPeriod ≠ 0 then
        [CommitAction.startHbTimer] else []) ++
      (if st.storedCfgValid then [CommitAction.copyStoredCfg] else []) ++
      [CommitAction.markValid] ++
      (if st.provisioner then [] else [CommitAction.netStart]))

/-- bt_mesh_settings_load (settings.c): replays the store (conf_load,
whose outcome is the loadErr parameter and the restored state st), then
invokes mesh_commit only when the restored role flag agrees with the
requested one, otherwise returns -2 with no further activation. -/
def bt_mesh_settings_load (cfg : Config) (loadErr : Int) (st : MeshState)
    (role_node : Bool) : Int × MeshState × List CommitAction :=
  if loadErr ≠ 0 then (loadErr, st, [])
  else if (st.node && role_node) || (st.provisioner && !role_node) then
    ((0 : Int), (mesh_commit cfg st).1, (mesh_commit cfg st).2)
  else (-2, st, [])

/-- C7: when the persisted role disagrees with the requested role (the
role-match condition is false), settings_load returns the role-mismatch
code -2, performs no activation step (empty action trace, so no key
derivation, no timers, no heartbeat start) and leaves the state
untouched, in particular not marked valid. -/
theorem settings_load_role_mismatch (cfg : Config) (st : MeshState)
    (role_node : Bool)
    (hmm : ((st.node && role_node) || (st.provisioner && !role_node)) = false) :
    bt_mesh_settings_load cfg 0 st role_node = (-2, st, []) ∧
    (bt_mesh_settings_load cfg 0 st role_node).2.1.valid = st.valid ∧
    (bt_mesh_settings_load cfg 0 st role_node).2.2 = [] := by
  have h : bt_mesh_settings_load cfg 0 st role_node = (-2, st, []) := by
    rw [bt_mesh_settings_load, if_neg (by simp), if_neg (by simp [hmm])]
  exact ⟨h, by rw [h], by rw [h]⟩

/-- A restored state whose persisted role is coordinator (provisioner). -/
def stPersistedCoord : MeshState :=
  { node := false, provisioner := true, valid := false, sub0Used := true,
    ivuDuration := 10, hbDst := 1, hbCount := 1, hbPeriod := 1,
    storedCfgValid := true }

/-- Witness for C7: persisted coordinator role, load requested with
role_node = true: the call returns -2 and performs nothing. -/
theorem settings_load_role_mismatch_witness :
    ((stPersistedCoord.node && true) ||
      (stPersistedCoord.provisioner && !true)) = false ∧
    bt_mesh_settings_load cfgA 0 stPersistedCoord true =
      (-2, stPersistedCoord, []) :=
  ⟨by decide,
    (settings_load_role_mismatch cfgA stPersistedCoord true (by decide)).1⟩

/-!
The record codecs: the byte layout of every persisted record, as built by
the store_pending_* routines (encode) and parsed by the *_set_bin
handlers (decode).  All multi-byte integers are little-endian; sub-byte
fields are bit-packed starting at bit 0, as laid out by the packed C
structs on the little-endian target.  Byte values are truncated exactly
where the C assignment into a narrower field truncates.
-/

/-- A 16-bit value as two little-endian bytes. -/
def enc16 (x : Nat) : List Nat := [x % 256, x / 256 % 256]

/-- Two little-endian bytes combined into a 16-bit value. -/
def dec16 (b0 b1 : Nat) : Nat := b0 + 256 * b1

/-- A 32-bit value as four little-endian bytes. -/
def enc32 (x : Nat) : List Nat :=
  [x % 256, x / 256 % 256, x / 65536 % 256, x / 16777216 % 256]

/-- Four little-endian bytes combined into a 32-bit value. -/
def dec32 (b0 b1 b2 b3 : Nat) : Nat :=
  b0 + 256 * b1 + 65536 * b2 + 16777216 * b3

/-- struct net_val: primary element address and 16-byte device key. -/
structure NetVal where
  primary_addr : Nat
  dev_key : List Nat
deriving DecidableEq, Repr

/-- The 18-byte layout written by store_pending_net. -/
def net_val_encode (v : NetVal) : List Nat :=
  enc16 v.primary_addr ++ v.dev_key

/-- The parse performed by net_set_bin on a nonempty value. -/
def net_val_decode (value : List Nat) : Option NetVal :=
  match value with
  | b0 :: b1 :: rest =>
    if rest.length = 16 then
      some { primary_addr := dec16 b0 b1, dev_key := rest }
    else none
  | _ => none

/-- The 3-byte layout written by store_pending_seq. -/
def seq_val_encode (s : Nat) : List Nat :=
  [s % 256, s / 256 % 256, s / 65536 % 256]

/-- The raw record parse of seq_set_bin (before store-rate rounding). -/
def seq_val_decode (value : List Nat) : Option Nat :=
  match value with
  | [b0, b1, b2] => some (seq_val_decode_raw b0 b1 b2)
  | _ => none

/-- struct iv_val: 32-bit IV index, update flag (1 bit) and duration
(7 bits) packed in the final byte. -/
structure IvVal where
  iv_index : Nat
  iv_update : Bool
  iv_duration : Nat
deriving DecidableEq, Repr

/-- The 5-byte layout written by store_pending_iv. -/
def iv_val_encode (v : IvVal) : List Nat :=
  enc32 v.iv_index ++
    [(if v.iv_update then 1 else 0) + 2 * (v.iv_duration % 128)]

/-- The parse performed by iv_set_bin on a nonempty value. -/
def iv_val_decode (value : List Nat) : Option IvVal :=
  match value with
  | [b0, b1, b2, b3, b4] =>
    some { iv_index := dec32 b0 b1 b2 b3, iv_update := b4 % 2 == 1,
           iv_duration := b4 / 2 % 128 }
  | _ => none

/-- struct rpl_val: 24-bit sequence and old-IV flag packed in a 32-bit
word (the upper 7 bits are padding, written as zero here). -/
structure RplVal where
  seq : Nat
  old_iv : Bool
deriving DecidableEq, Repr

/-- The 4-byte layout written by store_rpl. -/
def rpl_val_encode (v : RplVal) : List Nat :=
  [v.seq % 256, v.seq / 256 % 256, v.seq / 65536 % 256,
   if v.old_iv then 1 else 0]

/-- The parse performed by rpl_set_bin on a nonempty value. -/
def rpl_val_decode (value : List Nat) : Option RplVal :=
  match value with
  | [b0, b1, b2, b3] =>
    some { seq := seq_val_decode_raw b0 b1 b2, old_iv := b3 % 2 == 1 }
  | _ => none

/-- struct net_key_val: key-refresh flag (1 bit) and phase (7 bits)
packed in the first byte, then the two 16-byte key halves. -/
structure NetKeyVal where
  kr_flag : Bool
  kr_phase : Nat
  val0 : List Nat
  val1 : List Nat
deriving DecidableEq, Repr

/-- The 33-byte layout written by store_net_key. -/
def net_key_val_encode (v : NetKeyVal) : List Nat :=
  ((if v.kr_flag then 1 else 0) + 2 * (v.kr_phase % 128)) ::
    (v.val0 ++ v.val1)

/-- The parse performed by net_key_set_bin on a nonempty value. -/
def net_key_val_decode (value : List Nat) : Option NetKeyVal :=
  match value with
  | b :: rest =>
    if rest.length = 32 then
      some { kr_flag := b % 2 == 1, kr_phase := b / 2 % 128,
             val0 := rest.take 16, val1 := rest.drop 16 }
    else none
  | _ => none

/-- struct app_key_val: owning NetKey index, updated flag (one byte) and
the two 16-byte key halves. -/
structure AppKeyVal where
  net_idx : Nat
  updated : Bool
  val0 : List Nat
  val1 : List Nat
deriving DecidableEq, Repr

/-- The 35-byte layout written by store_app_key. -/
def app_key_val_encode (v : AppKeyVal) : List Nat :=
  enc16 v.net_idx ++ [if v.updated then 1 else 0] ++ v.val0 ++ v.val1

/-- The parse performed by app_key_set_bin on a nonempty value. -/
def app_key_val_decode (value : List Nat) : Option AppKeyVal :=
  match value with
  | b0 :: b1 :: b2 :: rest =>
    if rest.length = 32 then
      some { net_idx := dec16 b0 b1, updated := b2 != 0,
             val0 := rest.take 16, val1 := rest.drop 16 }
    else none
  | _ => none

/-- struct hb_pub_val: destination, period, ttl, feature bitmap, then the
12-bit NetKey index and 1-bit indefinite flag packed in the final two
bytes. -/
structure HbPubVal where
  dst : Nat
  period : Nat
  ttl : Nat
  feat : Nat
  net_idx : Nat
  indefinite : Bool
deriving DecidableEq, Repr

/-- The 8-byte layout written by store_pending_hb_pub. -/
def hb_pub_val_encode (v : HbPubVal) : List Nat :=
  enc16 v.dst ++ [v.period % 256, v.ttl % 256] ++ enc16 v.feat ++
    [v.net_idx % 256,
     v.net_idx / 256 % 16 + 16 * (if v.indefinite then 1 else 0)]

/-- The parse performed by hb_pub_set_bin on a nonempty value. -/
def hb_pub_val_decode (value : List Nat) : Option HbPubVal :=
  match value with
  | [b0, b1, b2, b3, b4, b5, b6, b7] =>
    some { dst := dec16 b0 b1, period := b2, ttl := b3,
           feat := dec16 b4 b5, net_idx := b6 + 256 * (b7 % 16),
           indefinite := b7 / 16 % 2 == 1 }
  | _ => none

/-- struct cfg_val: the seven staged configuration-server bytes. -/
structure CfgVal where
  net_transmit : Nat
  relay : Nat
  relay_retransmit : Nat
  beacon : Nat
  gatt_proxy : Nat
  frnd : Nat
  default_ttl : Nat
deriving DecidableEq, Repr

/-- The 7-byte layout written by store_pending_cfg. -/
def cfg_val_encode (v : CfgVal) : List Nat :=
  [v.net_transmit % 256, v.relay % 256, v.relay_retransmit % 256,
   v.beacon % 256, v.gatt_proxy % 256, v.frnd % 256, v.default_ttl % 256]

/-- The parse performed by cfg_set_bin on a nonempty value. -/
def cfg_val_decode (value : List Nat) : Option CfgVal :=
  match value with
  | [b0, b1, b2, b3, b4, b5, b6] =>
    some { net_transmit := b0, relay := b1, relay_retransmit := b2,
           beacon := b3, gatt_proxy := b4, frnd := b5, default_ttl := b6 }
  | _ => none

/-- struct mod_pub_val: publish address, key index, ttl, retransmit,
period, then the 4-bit period divisor and 1-bit credential flag packed in
the final byte. -/
structure ModPubVal where
  addr : Nat
  key : Nat
  ttl : Nat
  retransmit : Nat
  period : Nat
  period_div : Nat
  cred : Bool
deriving DecidableEq, Repr

/-- The 8-byte layout written by store_pending_mod_pub. -/
def mod_pub_val_encode (v : ModPubVal) : List Nat :=
  enc16 v.addr ++ enc16 v.key ++
    [v.ttl % 256, v.retransmit % 256, v.period % 256,
     v.period_div % 16 + 16 * (if v.cred then 1 else 0)]

/-- The parse performed by mod_set_pub_bin on a nonempty value. -/
def mod_pub_val_decode (value : List Nat) : Option ModPubVal :=
  match value with
  | [b0, b1, b2, b3, b4, b5, b6, b7] =>
    some { addr := dec16 b0 b1, key := dec16 b2 b3, ttl := b4,
           retransmit := b5, period := b6, period_div := b7 % 16,
           cred := b7 / 16 % 2 == 1 }
  | _ => none

/-- struct va_val: reference count, hashed address, 16-byte label UUID. -/
structure VaVal where
  ref : Nat
  addr : Nat
  uuid : List Nat
deriving DecidableEq, Repr

/-- The 20-byte layout written by store_pending_va. -/
def va_val_encode (v : VaVal) : List Nat :=
  enc16 v.ref ++ enc16 v.addr ++ v.uuid

/-- The parse performed by va_set_bin on a nonempty value. -/
def va_val_decode (value : List Nat) : Option VaVal :=
  match value with
  | b0 :: b1 :: b2 :: b3 :: rest =>
    if rest.length = 16 then
      some { ref := dec16 b0 b1, addr := dec16 b2 b3, uuid := rest }
    else none
  | _ => none

/-- struct node_val: owning NetKey index, 16-byte device key, element
count. -/
structure NodeVal where
  net_idx : Nat
  dev_key : List Nat
  num_elem : Nat
deriving DecidableEq, Repr

/-- The 19-byte layout written by store_node. -/
def node_val_encode (v : NodeVal) : List Nat :=
  enc16 v.net_idx ++ v.dev_key ++ [v.num_elem % 256]

/-- The parse performed by node_set_bin on a nonempty value. -/
def node_val_decode (value : List Nat) : Option NodeVal :=
  match value with
  | b0 :: b1 :: rest =>
    if rest.length = 17 then
      some { net_idx := dec16 b0 b1, dev_key := rest.take 16,
             num_elem := (rest.drop 16).headD 0 }
    else none
  | _ => none

/-- The variable-length array layout of model bindings and subscriptions:
a sequence of 16-bit little-endian values (store_pending_mod_bind and
store_pending_mod_sub). -/
def u16list_encode (ks : List Nat) : List Nat :=
  (ks.map enc16).flatten

/-- The array parse of mod_set_bind_bin and mod_set_sub_bin: the length
must be a multiple of two. -/
def u16list_decode : List Nat → Option (List Nat)
  | [] => some []
  | b0 :: b1 :: rest => (u16list_decode rest).map (fun ks => dec16 b0 b1 :: ks)
  | [_] => none

theorem packed_bit0 (fl : Bool) (x : Nat) :
    (((if fl then 1 else 0) + 2 * x) % 2 == 1) = fl := by
  cases fl
  · show ((0 + 2 * x) % 2 == 1) = false
    have h : (0 + 2 * x) % 2 = 0 := by omega
    rw [h]; rfl
  · show ((1 + 2 * x) % 2 == 1) = true
    have h : (1 + 2 * x) % 2 = 1 := by omega
    rw [h]; rfl

theorem packed_bits1to7 (fl : Bool) (x : Nat) (hx : x < 128) :
    ((if fl then 1 else 0) + 2 * (x % 128)) / 2 % 128 = x := by
  cases fl
  · show (0 + 2 * (x % 128)) / 2 % 128 = x
    omega
  · show (1 + 2 * (x % 128)) / 2 % 128 = x
    omega

theorem net_val_roundtrip (a : Nat) (key : List Nat) (ha : a < 65536)
    (hk : key.length = 16) :
    net_val_decode (net_val_encode ⟨a, key⟩) = some ⟨a, key⟩ := by
  simp only [net_val_encode, enc16, List.cons_append, List.nil_append,
    net_val_decode]
  rw [if_pos hk]
  have h : dec16 (a % 256) (a / 256 % 256) = a := by
    simp only [dec16]; omega
  rw [h]

theorem seq_val_roundtrip (s : Nat) (hs : s < 16777216) :
    seq_val_decode (seq_val_encode s) = some s := by
  have h : seq_val_decode_raw (s % 256) (s / 256 % 256) (s / 65536 % 256) = s := by
    simp only [seq_val_decode_raw]; omega
  simp only [seq_val_encode, seq_val_decode, h]

theorem iv_val_roundtrip (ix : Nat) (upd : Bool) (dur : Nat)
    (hi : ix < 4294967296) (hd : dur < 128) :
    iv_val_decode (iv_val_encode ⟨ix, upd, dur⟩) = some ⟨ix, upd, dur⟩ := by
  simp only [iv_val_encode, enc32, List.cons_append, List.nil_append,
    iv_val_decode]
  have h1 : dec32 (ix % 256) (ix / 256 % 256) (ix / 65536 % 256)
      (ix / 16777216 % 256) = ix := by
    simp only [dec32]; omega
  rw [h1, packed_bit0 upd (dur % 128), packed_bits1to7 upd dur hd]

theorem rpl_val_roundtrip (s : Nat) (old : Bool) (hs : s < 16777216) :
    rpl_val_decode (rpl_val_encode ⟨s, old⟩) = some ⟨s, old⟩ := by
  simp only [rpl_val_encode, rpl_val_decode]
  have h1 : seq_val_decode_raw (s % 256) (s / 256 % 256) (s / 65536 % 256) = s := by
    simp only [seq_val_decode_raw]; omega
  have h2 : ((if old then 1 else 0 : Nat) % 2 == 1) = old := by
    cases old
    · rfl
    · rfl
  rw [h1, h2]

theorem net_key_val_roundtrip (fl : Bool) (ph : Nat) (k0 k1 : List Nat)
    (hp : ph < 128) (h0 : k0.length = 16) (h1 : k1.length = 16) :
    net_key_val_decode (net_key_val_encode ⟨fl, ph, k0, k1⟩) =
      some ⟨fl, ph, k0, k1⟩ := by
  simp only [net_key_val_encode, net_key_val_decode]
  rw [if_pos (by simp [h0, h1])]
  rw [packed_bit0 fl (ph % 128), packed_bits1to7 fl ph hp,
    List.take_left' h0, List.drop_left' h0]

theorem app_key_val_roundtrip (n : Nat) (upd : Bool) (k0 k1 : List Nat)
    (hn : n < 65536) (h0 : k0.length = 16) (h1 : k1.length = 16) :
    app_key_val_decode (app_key_val_encode ⟨n, upd, k0, k1⟩) =
      some ⟨n, upd, k0, k1⟩ := by
  simp only [app_key_val_encode, enc16, List.cons_append, List.nil_append,
    app_key_val_decode]
  rw [if_pos (by simp [h0, h1])]
  have hd : dec16 (n % 256) (n / 256 % 256) = n := by
    simp only [dec16]; omega
  have hu : ((if upd then 1 else 0 : Nat) != 0) = upd := by
    cases upd
    · rfl
    · rfl
  rw [hd, hu, List.take_left' h0, List.drop_left' h0]

theorem hb_pub_val_roundtrip (dst per ttl feat n : Nat) (ind : Bool)
    (hdst : dst < 65536) (hper : per < 256) (httl : ttl < 256)
    (hfeat : feat < 65536) (hn : n < 4096) :
    hb_pub_val_decode (hb_pub_val_encode ⟨dst, per, ttl, feat, n, ind⟩) =
      some ⟨dst, per, ttl, feat, n, ind⟩ := by
  simp only [hb_pub_val_encode, enc16, List.cons_append, List.nil_append,
    hb_pub_val_decode]
  have h1 : dec16 (dst % 256) (dst / 256 % 256) = dst := by
    simp only [dec16]; omega
  have h2 : per % 256 = per := Nat.mod_eq_of_lt hper
  have h3 : ttl % 256 = ttl := Nat.mod_eq_of_lt httl
  have h4 : dec16 (feat % 256) (feat / 256 % 256) = feat := by
    simp only [dec16]; omega
  have h5 : n % 256 + 256 * ((n / 256 % 16 + 16 * (if ind then 1 else 0)) % 16)
      = n := by
    cases ind
    · show n % 256 + 256 * ((n / 256 % 16 + 16 * 0) % 16) = n
      omega
    · show n % 256 + 256 * ((n / 256 % 16 + 16 * 1) % 16) = n
      omega
  have h6 : ((n / 256 % 16 + 16 * (if ind then 1 else 0)) / 16 % 2 == 1)
      = ind := by
    cases ind
    · show ((n / 256 % 16 + 16 * 0) / 16 % 2 == 1) = false
      have h : (n / 256 % 16 + 16 * 0) / 16 % 2 = 0 := by omega
      rw [h]; rfl
    · show ((n / 256 % 16 + 16 * 1) / 16 % 2 == 1) = true
      have h : (n / 256 % 16 + 16 * 1) / 16 % 2 = 1 := by omega
      rw [h]; rfl
  rw [h1, h2, h3, h4, h5, h6]

theorem cfg_val_roundtrip (a b c d e f2 g : Nat) (ha : a < 256)
    (hb : b < 256) (hc : c < 256) (hd : d < 256) (he : e < 256)
    (hf : f2 < 256) (hg : g < 256) :
    cfg_val_decode (cfg_val_encode ⟨a, b, c, d, e, f2, g⟩) =
      some ⟨a, b, c, d, e, f2, g⟩ := by
  simp only [cfg_val_encode, cfg_val_decode]
  rw [Nat.mod_eq_of_lt ha, Nat.mod_eq_of_lt hb, Nat.mod_eq_of_lt hc,
    Nat.mod_eq_of_lt hd, Nat.mod_eq_of_lt he, Nat.mod_eq_of_lt hf,
    Nat.mod_eq_of_lt hg]

theorem mod_pub_val_roundtrip (ad ky ttl rt per pd : Nat) (cr : Bool)
    (had : ad < 65536) (hky : ky < 65536) (httl : ttl < 256)
    (hrt : rt < 256) (hper : per < 256) (hpd : pd < 16) :
    mod_pub_val_decode (mod_pub_val_encode ⟨ad, ky, ttl, rt, per, pd, cr⟩) =
      some ⟨ad, ky, ttl, rt, per, pd, cr⟩ := by
  simp only [mod_pub_val_encode, enc16, List.cons_append, List.nil_append,
    mod_pub_val_decode]
  have h1 : dec16 (ad % 256) (ad / 256 % 256) = ad := by
    simp only [dec16]; omega
  have h2 : dec16 (ky % 256) (ky / 256 % 256) = ky := by
    simp only [dec16]; omega
  have h3 : ttl % 256 = ttl := Nat.mod_eq_of_lt httl
  have h4 : rt % 256 = rt := Nat.mod_eq_of_lt hrt
  have h5 : per % 256 = per := Nat.mod_eq_of_lt hper
  have h6 : (pd % 16 + 16 * (if cr then 1 else 0)) % 16 = pd := by
    cases cr
    · show (pd % 16 + 16 * 0) % 16 = pd
      omega
    · show (pd % 16 + 16 * 1) % 16 = pd
      omega
  have h7 : ((pd % 16 + 16 * (if cr then 1 else 0)) / 16 % 2 == 1) = cr := by
    cases cr
    · show ((pd % 16 + 16 * 0) / 16 % 2 == 1) = false
      have h : (pd % 16 + 16 * 0) / 16 % 2 = 0 := by omega
      rw [h]; rfl
    · show ((pd % 16 + 16 * 1) / 16 % 2 == 1) = true
      have h : (pd % 16 + 16 * 1) / 16 % 2 = 1 := by omega
      rw [h]; rfl
  rw [h1, h2, h3, h4, h5, h6, h7]

theorem va_val_roundtrip (ref ad : Nat) (uuid : List Nat)
    (href : ref < 65536) (had : ad < 65536) (hu : uuid.length = 16) :
    va_val_decode (va_val_encode ⟨ref, ad, uuid⟩) = some ⟨ref, ad, uuid⟩ := by
  simp only [va_val_encode, enc16, List.cons_append, List.nil_append,
    va_val_decode]
  rw [if_pos hu]
  have h1 : dec16 (ref % 256) (ref / 256 % 256) = ref := by
    simp only [dec16]; omega
  have h2 : dec16 (ad % 256) (ad / 256 % 256) = ad := by
    simp only [dec16]; omega
  rw [h1, h2]

theorem node_val_roundtrip (n : Nat) (key : List Nat) (ne : Nat)
    (hn : n < 65536) (hk : key.length = 16) (hne : ne < 256) :
    node_val_decode (node_val_encode ⟨n, key, ne⟩) = some ⟨n, key, ne⟩ := by
  simp only [node_val_encode, enc16, List.cons_append, List.nil_append,
    node_val_decode]
  rw [if_pos (by simp [hk])]
  have h1 : dec16 (n % 256) (n / 256 % 256) = n := by
    simp only [dec16]; omega
  rw [h1, List.take_left' hk, List.drop_left' hk]
  simp only [List.headD_cons]
  rw [Nat.mod_eq_of_lt hne]

theorem u16list_roundtrip (ks : List Nat) (h : ∀ k ∈ ks, k < 65536) :
    u16list_decode (u16list_encode ks) = some ks := by
  induction ks with
  | nil => rfl
  | cons k rest ih =>
    have hk : k < 65536 := h k (List.mem_cons_self _ _)
    have hrest := ih (fun x hx => h x (List.mem_cons_of_mem _ hx))
    have hshape : u16list_encode (k :: rest) =
        (k % 256) :: (k / 256 % 256) :: u16list_encode rest := by
      simp [u16list_encode, enc16]
    have hd : dec16 (k % 256) (k / 256 % 256) = k := by
      simp only [dec16]; omega
    rw [hshape]
    simp only [u16list_decode, hrest, hd, Option.map_some']

/-- C5: for every entity category, decoding the encoding of any valid
record yields the record back: the encode half (store_pending_*) and the
decode half (*_set_bin) of each record codec are mutually inverse on
values whose fields are in range - in particular a heartbeat-publication
record with an assigned destination round-trips its destination, period,
ttl, feature bitmap, 12-bit net-key index and indefinite flag.  The
model-binding/subscription arrays round-trip as arrays of 16-bit
elements. -/
theorem codec_roundtrip :
    (∀ v : NetVal, v.primary_addr < 65536 → v.dev_key.length = 16 →
      net_val_decode (net_val_encode v) = some v) ∧
    (∀ s : Nat, s < 16777216 → seq_val_decode (seq_val_encode s) = some s) ∧
    (∀ v : IvVal, v.iv_index < 4294967296 → v.iv_duration < 128 →
      iv_val_decode (iv_val_encode v) = some v) ∧
    (∀ v : RplVal, v.seq < 16777216 →
      rpl_val_decode (rpl_val_encode v) = some v) ∧
    (∀ v : NetKeyVal, v.kr_phase < 128 → v.val0.length = 16 →
      v.val1.length = 16 →
      net_key_val_decode (net_key_val_encode v) = some v) ∧
    (∀ v : AppKeyVal, v.net_idx < 65536 → v.val0.length = 16 →
      v.val1.length = 16 →
      app_key_val_decode (app_key_val_encode v) = some v) ∧
    (∀ v : HbPubVal, v.dst < 65536 → v.period < 256 → v.ttl < 256 →
      v.feat < 65536 → v.net_idx < 4096 →
      hb_pub_val_decode (hb_pub_val_encode v) = some v) ∧
    (∀ v : CfgVal, v.net_transmit < 256 → v.relay < 256 →
      v.relay_retransmit < 256 → v.beacon < 256 → v.gatt_proxy < 256 →
      v.frnd < 256 → v.default_ttl < 256 →
      cfg_val_decode (cfg_val_encode v) = some v) ∧
    (∀ v : ModPubVal, v.addr < 65536 → v.key < 65536 → v.ttl < 256 →
      v.retransmit < 256 → v.period < 256 → v.period_div < 16 →
      mod_pub_val_decode (mod_pub_val_encode v) = some v) ∧
    (∀ v : VaVal, v.ref < 65536 → v.addr < 65536 → v.uuid.length = 16 →
      va_val_decode (va_val_encode v) = some v) ∧
    (∀ v : NodeVal, v.net_idx < 65536 → v.dev_key.length = 16 →
      v.num_elem < 256 →
      node_val_decode (node_val_encode v) = some v) ∧
    (∀ ks : List Nat, (∀ k ∈ ks, k < 65536) →
      u16list_decode (u16list_encode ks) = some ks) := by
  refine ⟨?_, seq_val_roundtrip, ?_, ?_, ?_, ?_, ?_, ?_, ?_, ?_, ?_,
    u16list_roundtrip⟩
  · exact fun v h1 h2 => net_val_roundtrip v.primary_addr v.dev_key h1 h2
  · exact fun v h1 h2 => iv_val_roundtrip v.iv_index v.iv_update
      v.iv_duration h1 h2
  · exact fun v h1 => rpl_val_roundtrip v.seq v.old_iv h1
  · exact fun v h1 h2 h3 => net_key_val_roundtrip v.kr_flag v.kr_phase
      v.val0 v.val1 h1 h2 h3
  · exact fun v h1 h2 h3 => app_key_val_roundtrip v.net_idx v.updated
      v.val0 v.val1 h1 h2 h3
  · exact fun v h1 h2 h3 h4 h5 => hb_pub_val_roundtrip v.dst v.period
      v.ttl v.feat v.net_idx v.indefinite h1 h2 h3 h4 h5
  · exact fun v h1 h2 h3 h4 h5 h6 h7 => cfg_val_roundtrip v.net_transmit
      v.relay v.relay_retransmit v.beacon v.gatt_proxy v.frnd
      v.default_ttl h1 h2 h3 h4 h5 h6 h7
  · exact fun v h1 h2 h3 h4 h5 h6 => mod_pub_val_roundtrip v.addr v.key
      v.ttl v.retransmit v.period v.period_div v.cred h1 h2 h3 h4 h5 h6
  · exact fun v h1 h2 h3 => va_val_roundtrip v.ref v.addr v.uuid h1 h2 h3
  · exact fun v h1 h2 h3 => node_val_roundtrip v.net_idx v.dev_key
      v.num_elem h1 h2 h3

/-- A concrete heartbeat-publication record with an assigned
destination. -/
def hbPubSample : HbPubVal :=
  { dst := 4660, period := 5, ttl := 7, feat := 3, net_idx := 291,
    indefinite := true }

/-- Witness for C5, on the heartbeat-publication example of the claim. -/
theorem codec_roundtrip_witness :
    (hbPubSample.dst < 65536 ∧ hbPubSample.period < 256 ∧
      hbPubSample.ttl < 256 ∧ hbPubSample.feat < 65536 ∧
      hbPubSample.net_idx < 4096) ∧
    hb_pub_val_decode (hb_pub_val_encode hbPubSample) = some hbPubSample :=
  ⟨⟨by decide, by decide, by decide, by decide, by decide⟩,
    codec_roundtrip.2.2.2.2.2.2.1 hbPubSample (by decide) (by decide)
      (by decide) (by decide) (by decide)⟩

/-!
The decode-side state effects of the *_set_bin handlers, for the
zero-length-payload behaviour.  External helpers that live outside
settings.c are modelled from the spec and marked as such.
-/

/-- The provisioning-related runtime state touched by net_set_bin. -/
structure NetState where
  provisioned : Bool
  primary_addr : Nat
  dev_key : List Nat
deriving DecidableEq, Repr

/-- A zeroed 16-byte device key. -/
def zeroKey : List Nat := List.replicate 16 0

/-- Modelled from the spec: bt_mesh_comp_unprovision (access.c, not under
src/) clears the provisioned state - NetworkState exists iff the node is
provisioned. -/
def bt_mesh_comp_unprovision (st : NetState) : NetState :=
  { st with provisioned := false, primary_addr := 0 }

/-- Modelled from the spec: bt_mesh_comp_provision (access.c, not under
src/) records the primary element address of a provisioned node. -/
def bt_mesh_comp_provision (st : NetState) (addr : Nat) : NetState :=
  { st with provisioned := true, primary_addr := addr }

/-- net_set_bin (settings.c): a zero-length value unprovisions the node
and zeroes the device key; a wrong-length value is rejected with -EINVAL;
otherwise the record is decoded and installed. -/
def net_set_bin (st : NetState) (value : List Nat) : Except Int NetState :=
  if value.length = 0 then
    Except.ok { bt_mesh_comp_unprovision st with dev_key := zeroKey }
  else
    match net_val_decode value with
    | none => Except.error (-22)
    | some net =>
      Except.ok (bt_mesh_comp_provision { st with dev_key := net.dev_key }
        net.primary_addr)

/-- The IV state touched by iv_set_bin. -/
structure IvState where
  iv_index : Nat
  ivuInProgress : Bool
  ivu_duration : Nat
deriving DecidableEq, Repr

/-- iv_set_bin (settings.c): a zero-length value resets the IV index and
clears the update-in-progress flag (the duration is left alone); a
wrong-length value is rejected; otherwise the record is installed. -/
def iv_set_bin (st : IvState) (value : List Nat) : Except Int IvState :=
  if value.length = 0 then
    Except.ok { st with iv_index := 0, ivuInProgress := false }
  else
    match iv_val_decode value with
    | none => Except.error (-22)
    | some iv =>
      Except.ok { iv_index := iv.iv_index, ivuInProgress := iv.iv_update,
                  ivu_duration := iv.iv_duration }

/-- The heartbeat publication state touched by hb_pub_set_bin. -/
structure HbPubState where
  dst : Nat
  count : Nat
  ttl : Nat
  period : Nat
  feat : Nat
  net_idx : Nat
deriving DecidableEq, Repr

/-- hb_pub_set_bin (settings.c): a zero-length value clears the
publication (destination unassigned, count, ttl, period, features
zeroed); otherwise the record is installed, with an indefinite
publication restored as count 0xffff. -/
def hb_pub_set_bin (pub : HbPubState) (value : List Nat) :
    Except Int HbPubState :=
  if value.length = 0 then
    Except.ok { pub with
      dst := 0, count := 0, ttl := 0, period := 0, feat := 0 }
  else
    match hb_pub_val_decode value with
    | none => Except.error (-22)
    | some v =>
      Except.ok { dst := v.dst, count := if v.indefinite then 65535 else 0,
                  ttl := v.ttl, period := v.period, feat := v.feat,
                  net_idx := v.net_idx }

/-- The staged configuration snapshot (static stored_cfg). -/
structure StoredCfg where
  valid : Bool
  cfg : CfgVal
deriving DecidableEq, Repr

/-- cfg_set_bin (settings.c): a zero-length value invalidates the staged
snapshot; otherwise the record is staged and marked valid. -/
def cfg_set_bin (sc : StoredCfg) (value : List Nat) : Except Int StoredCfg :=
  if value.length = 0 then Except.ok { sc with valid := false }
  else
    match cfg_val_decode value with
    | none => Except.error (-22)
    | some v => Except.ok { valid := true, cfg := v }

/-- One virtual-address label slot. -/
structure Label where
  ref : Nat
  addr : Nat
  uuid : List Nat
deriving DecidableEq, Repr

/-- Modelled from the spec: get_label (access.c, not under src/) returns
the label slot at the given index of the bounded label array, when the
index is within bounds. -/
def get_label (labels : List Label) (index : Nat) : Option Label :=
  labels.get? index

/-- va_set_bin (settings.c): a zero-length value only logs a warning and
returns success, touching no label; a wrong-length value is rejected; a
record with reference count zero is ignored; otherwise the label slot at
the key index is overwritten. -/
def va_set_bin (labels : List Label) (index : Nat) (value : List Nat) :
    Except Int (List Label) :=
  if value.length = 0 then Except.ok labels
  else
    match va_val_decode value with
    | none => Except.error (-22)
    | some va =>
      if va.ref = 0 then Except.ok labels
      else
        match get_label labels index with
        | none => Except.error (-105)
        | some _ =>
          Except.ok (modifyAt labels index
            (fun _ => { ref := va.ref, addr := va.addr, uuid := va.uuid }))

/-- A live label (reference count 1). -/
def labelSample : Label :=
  { ref := 1, addr := 43981, uuid := List.replicate 16 7 }

/-- C6 counterexample: the claim says a zero-length payload deletes or
clears the entity for every category, in particular virtual-address
labels; but va_set_bin on an empty payload returns the label array
completely unchanged, with the label still live (reference count 1, and
ref-count 0 is what logical deletion means for labels) - nothing is
deleted or cleared. -/
theorem va_empty_payload_not_clearing :
    va_set_bin [labelSample] 0 [] = Except.ok [labelSample] ∧
    (∀ lab ∈ [labelSample], lab.ref ≠ 0) := by
  constructor
  · rfl
  · decide

/-- C6 (amended): a zero-length payload on decode clears the entity for
the network, IV, sequence, heartbeat-publication and staged-configuration
categories, but the virtual-address-label handler ignores a zero-length
payload: it logs a warning and leaves every label unchanged. -/
theorem empty_payload_clear_policy (netst : NetState) (ivst : IvState)
    (rate : Nat) (pub : HbPubState) (sc : StoredCfg) (labels : List Label)
    (index : Nat) :
    net_set_bin netst [] =
      Except.ok { provisioned := false, primary_addr := 0,
                  dev_key := zeroKey } ∧
    iv_set_bin ivst [] =
      Except.ok { ivst with iv_index := 0, ivuInProgress := false } ∧
    seq_set_bin rate [] = Except.ok 0 ∧
    hb_pub_set_bin pub [] =
      Except.ok { pub with
        dst := 0, count := 0, ttl := 0, period := 0, feat := 0 } ∧
    cfg_set_bin sc [] = Except.ok { sc with valid := false } ∧
    va_set_bin labels index [] = Except.ok labels :=
  ⟨rfl, rfl, rfl, rfl, rfl, rfl⟩

end MeshSettings
